import Mathlib

/-!
Shallow embedding of the `abc` repository's scanner (`lex.go` state machine,
`src/unnamed/part_002`) and parser (`parse.go`, third revision in
`src/unnamed/part_001`), together with the `Tune` data model
(`src/unnamed/part_000`).

Modelling conventions:
* Go strings are modelled as `List Char`; positions are rune indices (for the
  ASCII inputs of interest these coincide with Go's byte offsets; the scanner
  never splits a rune, and `utf8.DecodeRuneInString` always has width 1 here,
  so `width` is `1` after a successful `next` and `0` at end of input).
* The lexer's item channel is modelled as the ordered list of emitted items.
* The Go scanner's `for state := lexLine; state != nil` driver is run with
  explicit fuel; inner character loops are total Lean recursions except the
  chord/annotation scan loop and the meter-field loop, which genuinely run
  forever in Go when end of input is reached first; these return `none`
  (divergence), which propagates to `scanGas _ _ = none`.
* `nil`-pointer dereferences of the parser's `currentTune` are modelled by the
  `crash` outcome.
-/

/-- itemType from the scanner (`itemMacro` is rendered `itemMcro`,
`itemAnnotationPosition` as `itemAnnotPos` and `itemAnnotation` as
`itemAnnot`). -/
inductive ItemType where
  | itemError
  | itemFieldName
  | itemColon
  | itemString
  | itemURL
  | itemUnit
  | itemKey
  | itemMeter
  | itemMcro
  | itemVoice
  | itemOpenParen
  | itemCloseParen
  | itemLetter
  | itemNumber
  | itemDivide
  | itemPlus
  | itemMinus
  | itemEquals
  | itemSharp
  | itemNatural
  | itemFlat
  | itemMinor
  | itemExclamation
  | itemStar
  | itemPercent
  | itemDottedBarline
  | itemBarline
  | itemThinThickDoubleBarLine
  | itemThinThinDoubleBarLine
  | itemThickThinDoubleBarLine
  | itemStartRepeat
  | itemEndRepeat
  | itemStartEndRepeats
  | itemQuote
  | itemNewline
  | itemSpace
  | itemBackslash
  | itemGreaterThan
  | itemLessThan
  | itemComment
  | itemInvisibleRest
  | itemRest
  | itemMultiMeasureRest
  | itemChord
  | itemAnnotPos
  | itemAnnot
  | itemVariantNumber
  | itemVariantComma
  | itemVariantRange
  | itemEOF
deriving DecidableEq, Repr

export ItemType (itemError itemFieldName itemColon itemString itemURL itemUnit
  itemKey itemMeter itemMcro itemVoice itemOpenParen itemCloseParen itemLetter
  itemNumber itemDivide itemPlus itemMinus itemEquals itemSharp itemNatural
  itemFlat itemMinor itemExclamation itemStar itemPercent itemDottedBarline
  itemBarline itemThinThickDoubleBarLine itemThinThinDoubleBarLine
  itemThickThinDoubleBarLine itemStartRepeat itemEndRepeat itemStartEndRepeats
  itemQuote itemNewline itemSpace itemBackslash itemGreaterThan itemLessThan
  itemComment itemInvisibleRest itemRest itemMultiMeasureRest itemChord
  itemAnnotPos itemAnnot itemVariantNumber itemVariantComma itemVariantRange
  itemEOF)

/-- item: a token returned from the scanner (`typ`, byte position `pos`,
literal value `val`, line number `line`). -/
structure Item where
  typ : ItemType
  pos : Nat
  val : List Char
  line : Nat
deriving DecidableEq, Repr

/-- Meter from `tune.go` (`src/unnamed/part_000`). -/
structure Meter where
  Numerator : List Int := []
  Denominator : Int := 0
deriving DecidableEq, Repr

/-- NoteLength from `tune.go`. -/
structure NoteLength where
  Numerator : Int := 0
  Denominator : Int := 0
deriving DecidableEq, Repr

/-- BarLine from `tune.go`. -/
structure BarLine where
  Repeat : Int := 0
deriving DecidableEq, Repr

/-- The `Notation` interface of `tune.go` only exposes `Length() int`;
modelled as a record carrying that capability (named `NotationV` because of
naming restrictions). -/
structure NotationV where
  LengthV : Int := 0
deriving DecidableEq, Repr

/-- Bar from `tune.go`; the middle field is named `Notation` in the source. -/
structure Bar where
  Left : BarLine := {}
  NotationElems : List NotationV := []
  Right : BarLine := {}
deriving DecidableEq, Repr

/-- `type Key string` from `tune.go`. -/
def Key : Type := List Char
deriving DecidableEq, Repr

/-- Tune from `tune.go` (`src/unnamed/part_000`).  Defaults are the Go zero
values, so `{}` is the value `abc.Tune{}`. -/
structure Tune where
  Area : List Char := []
  Book : List Char := []
  Composer : List Char := []
  Discography : List Char := []
  FileURL : List Char := []
  History : List (List Char) := []
  Group : List Char := []
  Sequence : Int := 0
  Title : List Char := []
  Comments : List (List Char) := []
  Rhythm : List Char := []
  Origin : List Char := []
  Meter : Meter := {}
  NoteLength : NoteLength := {}
  Key : Key := ([] : List Char)
  Source : List Char := []
  Transcription : List Char := []
  WordsAfterTune : List (List Char) := []
  Bars : List Bar := []
deriving DecidableEq, Repr

/-- `abc.Tune{}`: the zero value every new accumulator starts from. -/
def emptyTune : Tune := {}

/-- `n, _ := strconv.Atoi(string(s))`: the integer value with the error
discarded.  Syntax errors yield 0; out-of-range values are clamped to the
64-bit int range exactly as `strconv.Atoi` reports them alongside `ErrRange`. -/
def goAtoi (s : List Char) : Int :=
  let core : Bool → List Char → Int := fun neg ds =>
    if ds ≠ [] ∧ ds.all Char.isDigit then
      let v : Int := Int.ofNat (ds.foldl (fun a c => a * 10 + c.toNat - '0'.toNat) 0)
      if neg then max (-(2 ^ 63)) (-v) else min (2 ^ 63 - 1) v
    else 0
  match s with
  | '+' :: rest => core false rest
  | '-' :: rest => core true rest
  | _ => core false s

/-! ### Scanner state and primitives (`src/unnamed/part_002`) -/

/-- lexer: holds the state of the scanner.  `items` models the channel of
scanned items in emission order. -/
structure LexState where
  name : List Char := []
  input : List Char
  pos : Nat := 0
  start : Nat := 0
  width : Nat := 0
  items : List Item := []
  parenDepth : Int := 0
  line : Nat := 1
deriving Repr

/-- isSpace reports whether r is a space character. -/
def isSpace (r : Char) : Bool := r == ' ' || r == '\t'

/-- isEndOfLine reports whether r is an end-of-line character. -/
def isEndOfLine (r : Char) : Bool := r == '\r' || r == '\n'

/-- next returns the next rune in the input (`none` is the eof sentinel). -/
def lexNext (l : LexState) : Option Char × LexState :=
  if h : l.pos < l.input.length then
    let r := l.input.get ⟨l.pos, h⟩
    let line' := if r == '\n' then l.line + 1 else l.line
    (some r, { l with width := 1, pos := l.pos + 1, line := line' })
  else (none, { l with width := 0 })

/-- backup steps back one rune (Go indexes `l.input[l.pos]` after the
decrement; the `getD` default covers indices Go could never reach here). -/
def lexBackup (l : LexState) : LexState :=
  let p := l.pos - l.width
  let line' := if l.width == 1 && l.input.getD p ' ' == '\n' then l.line - 1
               else l.line
  { l with pos := p, line := line' }

/-- peek returns but does not consume the next rune in the input. -/
def lexPeek (l : LexState) : Option Char × LexState :=
  let (r, l') := lexNext l
  (r, lexBackup l')

/-- emit passes an item back to the client. -/
def lexEmit (t : ItemType) (l : LexState) : LexState :=
  { l with
    items := l.items ++
      [⟨t, l.start, (l.input.drop l.start).take (l.pos - l.start), l.line⟩],
    start := l.pos }

/-- ignore skips over the pending input before this point. -/
def lexIgnore (l : LexState) : LexState :=
  { l with
    line := l.line + ((l.input.drop l.start).take (l.pos - l.start)).count '\n',
    start := l.pos }

/-- errorf emits an error item; whether the scan then stops is decided at the
call site (the Go callers either `return l.errorf(...)` or drop the result). -/
def lexErrorf (msg : List Char) (l : LexState) : LexState :=
  { l with items := l.items ++ [⟨itemError, l.start, msg, l.line⟩] }

/-- decimal rendering of a rune, for `%v` in error messages. -/
def charDecimal (c : Char) : List Char := Nat.toDigits 10 c.toNat

theorem lexNext_some {l : LexState} {r : Char} {l' : LexState}
    (h : lexNext l = (some r, l')) :
    l'.input = l.input ∧ l'.pos = l.pos + 1 ∧ l'.width = 1 ∧
      l.pos < l.input.length := by
  unfold lexNext at h
  by_cases hp : l.pos < l.input.length
  · rw [dif_pos hp] at h
    simp only [Prod.mk.injEq, Option.some.injEq] at h
    obtain ⟨-, hl⟩ := h
    subst hl
    exact ⟨rfl, rfl, rfl, hp⟩
  · rw [dif_neg hp] at h
    simp at h

theorem lexNext_none {l : LexState} {l' : LexState}
    (h : lexNext l = (none, l')) :
    l' = { l with width := 0 } ∧ l.input.length ≤ l.pos := by
  unfold lexNext at h
  by_cases hp : l.pos < l.input.length
  · rw [dif_pos hp] at h; simp at h
  · rw [dif_neg hp] at h
    simp only [Prod.mk.injEq] at h
    exact ⟨h.2.symm, by omega⟩

theorem lexPeek_some {l : LexState} {r : Char} {l' : LexState}
    (h : lexPeek l = (some r, l')) :
    l'.input = l.input ∧ l'.pos = l.pos ∧ l.pos < l.input.length := by
  unfold lexPeek at h
  cases hn : lexNext l with
  | mk ro l1 =>
    rw [hn] at h
    cases ro with
    | none => simp at h
    | some c =>
      simp only [Prod.mk.injEq, Option.some.injEq] at h
      obtain ⟨-, hb⟩ := h
      obtain ⟨hi, hp, hw, hlt⟩ := lexNext_some hn
      subst hb
      unfold lexBackup
      simp [hi, hp, hw]
      exact hlt

/-- acceptRun consumes a run of runes from the valid set. -/
def acceptRunLoop (valid : List Char) (l : LexState) : LexState :=
  match h : lexNext l with
  | (some r, l') =>
    if valid.contains r then acceptRunLoop valid l' else lexBackup l'
  | (none, l') => lexBackup l'
termination_by l.input.length - l.pos
decreasing_by
  obtain ⟨hi, hp, -, hlt⟩ := lexNext_some h
  simp [hi, hp]
  omega

def acceptDecimalRun (l : LexState) : LexState :=
  acceptRunLoop "0123456789".toList l

theorem acceptRunLoop_facts (valid : List Char) (l : LexState) :
    (acceptRunLoop valid l).input = l.input ∧
      l.pos ≤ (acceptRunLoop valid l).pos := by
  generalize hm : l.input.length - l.pos = n
  induction n generalizing l with
  | zero =>
    rw [acceptRunLoop]
    split
    · next r l' h =>
      exact absurd (lexNext_some h).2.2.2 (by omega)
    · next l' h =>
      obtain ⟨hl, -⟩ := lexNext_none h
      subst hl
      simp [lexBackup]
  | succ n ih =>
    rw [acceptRunLoop]
    split
    · next r l' h =>
      obtain ⟨hi, hp2, hw, hlt⟩ := lexNext_some h
      split
      · have h2 := ih l' (by rw [hi, hp2]; omega)
        refine ⟨by rw [h2.1, hi], ?_⟩
        have := h2.2
        omega
      · refine ⟨by simp [lexBackup, hi], ?_⟩
        simp [lexBackup, hp2, hw]
    · next l' h =>
      obtain ⟨hl, -⟩ := lexNext_none h
      subst hl
      simp [lexBackup]

@[simp] theorem lexEmit_input (t : ItemType) (l : LexState) :
    (lexEmit t l).input = l.input := rfl

@[simp] theorem lexEmit_pos (t : ItemType) (l : LexState) :
    (lexEmit t l).pos = l.pos := rfl

@[simp] theorem lexIgnore_input (l : LexState) :
    (lexIgnore l).input = l.input := rfl

@[simp] theorem lexIgnore_pos (l : LexState) : (lexIgnore l).pos = l.pos := rfl

@[simp] theorem lexErrorf_input (m : List Char) (l : LexState) :
    (lexErrorf m l).input = l.input := rfl

@[simp] theorem lexErrorf_pos (m : List Char) (l : LexState) :
    (lexErrorf m l).pos = l.pos := rfl

/-- ignoreWhitespace: skip whitespace at the current position. -/
def ignoreWhitespaceLoop (l : LexState) : LexState :=
  match h : lexPeek l with
  | (some r, l') =>
    if isSpace r then ignoreWhitespaceLoop (lexIgnore { l' with pos := l'.pos + 1 })
    else l'
  | (none, l') => l'
termination_by l.input.length - l.pos
decreasing_by
  obtain ⟨hi, hp, hlt⟩ := lexPeek_some h
  simp only [lexIgnore_input, lexIgnore_pos]
  simp only [hi, hp]
  omega

/-- consumeToEndOfLine: consume runes up to (not including) end of line or
end of input. -/
def consumeToEolLoop (l : LexState) : LexState :=
  match h : lexPeek l with
  | (some r, l') =>
    if !(isEndOfLine r) then consumeToEolLoop { l' with pos := l'.pos + 1 }
    else l'
  | (none, l') => l'
termination_by l.input.length - l.pos
decreasing_by
  obtain ⟨hi, hp, hlt⟩ := lexPeek_some h
  simp only [hi, hp]
  omega

/-- The scan loop shared by `lexChord` and `lexAnnotation` (textually repeated
in the source): advance until a closing quote.  When end of input is reached
first, the Go loop keeps executing `l.pos++` while `peek` keeps returning the
eof sentinel, which is never `'"'`: it never terminates, modelled as `none`. -/
def chordScanLoop (l : LexState) : Option LexState :=
  match h : lexPeek l with
  | (some r, l') =>
    if r == '"' then some l' else chordScanLoop { l' with pos := l'.pos + 1 }
  | (none, _) => none
termination_by l.input.length - l.pos
decreasing_by
  obtain ⟨hi, hp, hlt⟩ := lexPeek_some h
  simp only [hi, hp]
  omega

/-- acceptNewline: the Go method emits an error item on a non-newline rune but
discards `errorf`'s returned state, so the caller's scan continues either way. -/
def lexAcceptNewline (l : LexState) : LexState :=
  match lexNext l with
  | (none, l') => l'
  | (some r, l') =>
    if !(isEndOfLine r) then
      lexErrorf ("expected newline, got ".toList ++ charDecimal r) l'
    else lexEmit itemNewline l'

/-- ignoreNewline: as acceptNewline but the newline is dropped, not emitted. -/
def lexIgnoreNewline (l : LexState) : LexState :=
  match lexNext l with
  | (none, l') => l'
  | (some r, l') =>
    if !(isEndOfLine r) then
      lexErrorf ("expected newline, got ".toList ++ charDecimal r) l'
    else lexIgnore l'

/-! Header field letters.  The scanner's const block defines `X T N M L K C O R`. -/

def headerX : Char := 'X'
def headerT : Char := 'T'
def headerN : Char := 'N'
def headerM : Char := 'M'
def headerL : Char := 'L'
def headerK : Char := 'K'
def headerC : Char := 'C'
def headerO : Char := 'O'
def headerR : Char := 'R'

/-- Modelled from the spec: `handleFieldName` in the parser also references
constants `headerA headerB headerD headerF headerG headerH headerI headerP
headerQ headerS headerU headerV headerW headerZ` and lowercase `headerm
headerr headers headerw`, whose defining file is not under `src/`; following
the source's `headerX = 'X'` naming pattern and the spec's field-letter table
(§6: A=area, B=book, D=discography, F=file URL, G=group, H=history,
S=source, W=words, Z=transcription, r=remark, ...), each constant denotes its
own letter. -/
def headerA : Char := 'A'
def headerB : Char := 'B'
def headerD : Char := 'D'
def headerF : Char := 'F'
def headerG : Char := 'G'
def headerH : Char := 'H'
def headerI : Char := 'I'
def headerP : Char := 'P'
def headerQ : Char := 'Q'
def headerS : Char := 'S'
def headerU : Char := 'U'
def headerV : Char := 'V'
def headerW : Char := 'W'
def headerZ : Char := 'Z'
def headerm : Char := 'm'
def headerr : Char := 'r'
def headers : Char := 's'
def headerw : Char := 'w'

/-- The scanner's state functions, as a tag for the fuelled driver
(`lexComment` is rendered `commentLn`, `lexAnnotation` as `annot`). -/
inductive STag where
  | line
  | bodyLine
  | variant
  | chord
  | annot
  | commentLn
  | headerLine
  | nextLine
  | headerInt
  | headerString
  | headerMeter
  | headerNoteLength
deriving DecidableEq, Repr

/-- lexLine: at the start of every line decide header vs body (the second
character of the line being a colon), or emit EOF. -/
def lexLineF (l : LexState) : Option (Option STag × LexState) :=
  match lexPeek l with
  | (none, l) => some (none, lexEmit itemEOF l)
  | (some _, l) =>
    if List.isPrefixOf [':'] (l.input.drop (l.pos + 1)) then
      some (some STag.headerLine, l)
    else some (some STag.bodyLine, l)

/-- The single-character `switch c := l.next()` tail of `lexBodyLine` (split
out of `lexBodyLineF` only for readability; order of cases as in the source,
which are mutually exclusive). -/
def lexBodySingle (l : LexState) : Option (Option STag × LexState) :=
  match lexNext l with
  | (none, l) => some (none, lexEmit itemEOF l)
  | (some ch, l) =>
    if ch == '%' then some (some STag.commentLn, lexEmit itemPercent l)
    else if isSpace ch then some (some STag.bodyLine, lexEmit itemSpace l)
    else if ch == 'x' then some (some STag.bodyLine, lexEmit itemInvisibleRest l)
    else if ch == 'z' then some (some STag.bodyLine, lexEmit itemRest l)
    else if ch == 'Z' then some (some STag.bodyLine, lexEmit itemMultiMeasureRest l)
    else if ch.isAlpha then some (some STag.bodyLine, lexEmit itemLetter l)
    else if ch == '^' then some (some STag.bodyLine, lexEmit itemSharp l)
    else if ch == '=' then some (some STag.bodyLine, lexEmit itemNatural l)
    else if ch == '_' then some (some STag.bodyLine, lexEmit itemFlat l)
    else if ch == '/' then some (some STag.bodyLine, lexEmit itemDivide l)
    else if ch == '\\' then
      some (some STag.bodyLine, lexIgnoreNewline (lexIgnore l))
    else if ch == '"' then some (some STag.chord, lexIgnore l)
    else if ch == '|' then some (some STag.bodyLine, lexEmit itemBarline l)
    else if ch == '+' then some (some STag.bodyLine, lexEmit itemPlus l)
    else if ch == '<' then some (some STag.bodyLine, lexEmit itemLessThan l)
    else if ch == '>' then some (some STag.bodyLine, lexEmit itemGreaterThan l)
    else if ch == '-' then some (some STag.bodyLine, lexEmit itemMinus l)
    else if ch == '[' then
      match lexPeek l with
      | (some p, l) =>
        if p.isDigit then some (some STag.variant, lexIgnore l)
        else some (some STag.bodyLine, lexErrorf "unexpected character after [".toList l)
      | (none, l) =>
        some (some STag.bodyLine, lexErrorf "unexpected character after [".toList l)
    else if ch == ':' then some (some STag.bodyLine, lexEmit itemColon l)
    else some (none, lexErrorf ("unknown character: ".toList ++ [ch]) l)

/-- lexBodyLine: end-of-line, digit runs, the two-character lookahead for
compound barline markers (checked, as in the source, on the input starting at
`l.pos+1`), then the single-character switch. -/
def lexBodyLineF (l : LexState) : Option (Option STag × LexState) :=
  match lexPeek l with
  | (r0, l) =>
    if (r0.elim false isEndOfLine) then some (some STag.line, lexAcceptNewline l)
    else
      match lexPeek l with
      | (r1, l) =>
        if (r1.elim false Char.isDigit) then
          some (some STag.line, lexEmit itemNumber (acceptDecimalRun l))
        else if l.pos + 2 < l.input.length then
          -- Go: len(l.input)-2 > int(l.pos)
          let rest := l.input.drop (l.pos + 1)
          if List.isPrefixOf ['|', ']'] rest then
            some (some STag.bodyLine,
              lexEmit itemThinThickDoubleBarLine { l with pos := l.pos + 2 })
          else if List.isPrefixOf ['|', '|'] rest then
            some (some STag.bodyLine,
              lexEmit itemThinThinDoubleBarLine { l with pos := l.pos + 2 })
          else if List.isPrefixOf ['[', '|'] rest then
            some (some STag.bodyLine,
              lexEmit itemThickThinDoubleBarLine { l with pos := l.pos + 2 })
          else if List.isPrefixOf ['|', ':'] rest then
            some (some STag.bodyLine,
              lexEmit itemStartRepeat { l with pos := l.pos + 2 })
          else if List.isPrefixOf [':', '|'] rest then
            some (some STag.bodyLine,
              lexEmit itemEndRepeat { l with pos := l.pos + 2 })
          else if List.isPrefixOf [':', ':'] rest
              || List.isPrefixOf [':', '|', ':'] rest
              || List.isPrefixOf [':', '|', '|', ':'] rest then
            some (some STag.bodyLine,
              lexEmit itemStartEndRepeats { l with pos := l.pos + 2 })
          else if List.isPrefixOf ['.', '|'] rest then
            some (some STag.bodyLine,
              lexEmit itemDottedBarline { l with pos := l.pos + 2 })
          else lexBodySingle l
        else lexBodySingle l

/-- lexVariant: decimal run, then comma- or dash-separated continuation. -/
def lexVariantF (l : LexState) : Option (Option STag × LexState) :=
  let l := lexEmit itemVariantNumber (acceptDecimalRun l)
  match lexPeek l with
  | (p1, l) =>
    if p1 == some ',' then
      some (some STag.variant, lexEmit itemVariantComma { l with pos := l.pos + 1 })
    else
      match lexPeek l with
      | (p2, l) =>
        if p2 == some '-' then
          some (some STag.variant, lexEmit itemVariantRange { l with pos := l.pos + 1 })
        else some (some STag.line, l)

/-- lexChord: annotation-position marker or chord literal. -/
def lexChordF (l : LexState) : Option (Option STag × LexState) :=
  match lexPeek l with
  | (a, l) =>
    if a == some '^' || a == some '_' || a == some '<' || a == some '>'
        || a == some '@' then
      some (some STag.annot, lexEmit itemAnnotPos { l with pos := l.pos + 1 })
    else
      match chordScanLoop l with
      | none => none
      | some l =>
        let l := lexEmit itemChord l
        some (some STag.bodyLine, lexIgnore { l with pos := l.pos + 1 })

/-- lexAnnotation: the text up to the closing quote. -/
def lexAnnotF (l : LexState) : Option (Option STag × LexState) :=
  match chordScanLoop l with
  | none => none
  | some l =>
    let l := lexEmit itemAnnot l
    some (some STag.bodyLine, lexIgnore { l with pos := l.pos + 1 })

/-- lexComment: the rest of the line is one comment item. -/
def lexCommentF (l : LexState) : Option (Option STag × LexState) :=
  let l := consumeToEolLoop l
  let l := lexEmit itemComment l
  some (some STag.line, lexAcceptNewline l)

/-- lexHeaderLine: field-name rune, discarded colon, dispatch by field letter.
The `none` rune case is unreachable from `lexLine` (which only dispatches here
below end of input); Go would render rune -1 as U+FFFD in the message. -/
def lexHeaderLineF (l : LexState) : Option (Option STag × LexState) :=
  match lexNext l with
  | (fieldName, l) =>
    let l := lexEmit itemFieldName l
    let l := lexIgnore { l with pos := l.pos + 1 }
    match fieldName with
    | some c =>
      if c == headerX then some (some STag.headerInt, l)
      else if c == headerT || c == headerN then some (some STag.headerString, l)
      else if c == headerM then some (some STag.headerMeter, l)
      else if c == headerL then some (some STag.headerNoteLength, l)
      else if c == headerK then some (some STag.headerString, l)
      else if c == headerC then some (some STag.headerString, l)
      else if c == headerO then some (some STag.headerString, l)
      else if c == headerR then some (some STag.headerString, l)
      else some (none, lexErrorf ("unknown header field ".toList ++ [c]) l)
    | none =>
      some (none, lexErrorf ("unknown header field ".toList ++ [Char.ofNat 65533]) l)

/-- lexNextLine: discard trailing whitespace, then the newline. -/
def lexNextLineF (l : LexState) : Option (Option STag × LexState) :=
  let l := ignoreWhitespaceLoop l
  some (some STag.line, lexAcceptNewline l)

/-- lexHeaderInt: whitespace, then a decimal run as one number item. -/
def lexHeaderIntF (l : LexState) : Option (Option STag × LexState) :=
  let l := ignoreWhitespaceLoop l
  let l := lexEmit itemNumber (acceptDecimalRun l)
  some (some STag.nextLine, l)

/-- lexHeaderString: whitespace, then the rest of the line as one string item. -/
def lexHeaderStringF (l : LexState) : Option (Option STag × LexState) :=
  let l := ignoreWhitespaceLoop l
  let l := lexEmit itemString (consumeToEolLoop l)
  some (some STag.nextLine, l)

/-- One iteration of `lexHeaderMeter`'s per-character switch, after `l.pos++`
(characters outside the switch are consumed without emitting). -/
def headerMeterStep (c : Char) (l : LexState) : LexState :=
  if c.isDigit then lexEmit itemNumber (acceptDecimalRun l)
  else if c == '(' then lexEmit itemOpenParen l
  else if c == ')' then lexEmit itemCloseParen l
  else if c == '+' then lexEmit itemPlus l
  else if c == '/' then lexEmit itemDivide l
  else l

theorem headerMeterStep_facts (c : Char) (l : LexState) :
    (headerMeterStep c l).input = l.input ∧ l.pos ≤ (headerMeterStep c l).pos := by
  unfold headerMeterStep
  split_ifs
  case pos =>
    simpa [lexEmit, acceptDecimalRun] using
      acceptRunLoop_facts "0123456789".toList l
  all_goals simp [lexEmit]

/-- The `for !isEndOfLine(c)` loop of `lexHeaderMeter`.  `isEndOfLine` is
false for the eof sentinel, so at end of input the Go loop advances `l.pos`
forever without ever reading a rune: it never terminates, modelled as `none`. -/
def headerMeterLoop (l : LexState) : Option LexState :=
  match h : lexPeek l with
  | (some c, l') =>
    if isEndOfLine c then some l'
    else headerMeterLoop (headerMeterStep c { l' with pos := l'.pos + 1 })
  | (none, _) => none
termination_by l.input.length - l.pos
decreasing_by
  obtain ⟨hi, hp, hlt⟩ := lexPeek_some h
  obtain ⟨hsi, hsp⟩ := headerMeterStep_facts c { l' with pos := l'.pos + 1 }
  have e1 : (headerMeterStep c { l' with pos := l'.pos + 1 }).input.length
      = l.input.length := by rw [hsi]; exact congrArg List.length hi
  have e2 : l'.pos + 1 ≤ (headerMeterStep c { l' with pos := l'.pos + 1 }).pos := hsp
  omega

/-- lexHeaderMeter. -/
def lexHeaderMeterF (l : LexState) : Option (Option STag × LexState) :=
  let l := ignoreWhitespaceLoop l
  match headerMeterLoop l with
  | none => none
  | some l => some (some STag.nextLine, l)

/-- The `for !isEndOfLine(c)` loop of `lexHeaderNoteLength`.  A letter hands
the rest of the field to `lexHeaderString`; unlike the meter loop this one has
a default case, so at end of input it runs once more (`l.pos++`, then
`errorf`, rendering rune -1 as U+FFFD) and stops the scan. -/
def headerNoteLengthLoop (l : LexState) : Option STag × LexState :=
  match h : lexPeek l with
  | (some c, l') =>
    if isEndOfLine c then (some STag.nextLine, l')
    else
      let l2 : LexState := { l' with pos := l'.pos + 1 }
      if c.isAlpha then (some STag.headerString, l2)
      else if c.isDigit then
        headerNoteLengthLoop (lexEmit itemNumber (acceptDecimalRun l2))
      else if c == '/' then headerNoteLengthLoop (lexEmit itemDivide l2)
      else (none, lexErrorf ("unknown character: ".toList ++ [c]) l2)
  | (none, l') =>
    (none, lexErrorf ("unknown character: ".toList ++ [Char.ofNat 65533])
      { l' with pos := l'.pos + 1 })
termination_by l.input.length - l.pos
decreasing_by
  · obtain ⟨hi, hp, hlt⟩ := lexPeek_some h
    obtain ⟨hsi, hsp⟩ :=
      acceptRunLoop_facts "0123456789".toList { l' with pos := l'.pos + 1 }
    have e1 : (acceptDecimalRun { l' with pos := l'.pos + 1 }).input.length
        = l.input.length := by
      rw [show (acceptDecimalRun { l' with pos := l'.pos + 1 }).input
          = l'.input from hsi]
      exact congrArg List.length hi
    simp only [lexEmit_input, lexEmit_pos]
    have e2 : l'.pos + 1 ≤ (acceptDecimalRun { l' with pos := l'.pos + 1 }).pos := hsp
    unfold acceptDecimalRun at e1 e2 ⊢
    omega
  · obtain ⟨hi, hp, hlt⟩ := lexPeek_some h
    simp only [lexEmit_input, lexEmit_pos]
    simp only [hi, hp]
    omega

/-- lexHeaderNoteLength. -/
def lexHeaderNoteLengthF (l : LexState) : Option (Option STag × LexState) :=
  let l := ignoreWhitespaceLoop l
  some (headerNoteLengthLoop l)

/-- Dispatch a state tag to its state function. -/
def stepLex : STag → LexState → Option (Option STag × LexState)
  | .line, l => lexLineF l
  | .bodyLine, l => lexBodyLineF l
  | .variant, l => lexVariantF l
  | .chord, l => lexChordF l
  | .annot, l => lexAnnotF l
  | .commentLn, l => lexCommentF l
  | .headerLine, l => lexHeaderLineF l
  | .nextLine, l => lexNextLineF l
  | .headerInt, l => lexHeaderIntF l
  | .headerString, l => lexHeaderStringF l
  | .headerMeter, l => lexHeaderMeterF l
  | .headerNoteLength, l => lexHeaderNoteLengthF l

/-- run: `for state := lexLine; state != nil { state = state(l) }`, with fuel.
`some items` is a finished scan (the channel closes after `items`); `none`
means the driver ran out of fuel or a state function diverged. -/
def runLex : Nat → STag → LexState → Option (List Item)
  | 0, _, _ => none
  | fuel + 1, tag, l =>
    match stepLex tag l with
    | none => none
    | some (none, l') => some l'.items
    | some (some tag', l') => runLex fuel tag' l'

/-- lex: a fresh scanner over `input`, started in `lexLine`. -/
def mkLexState (input : List Char) : LexState := { input := input, line := 1 }

/-- The full scan of `input` under `fuel` driver iterations. -/
def scanGas (fuel : Nat) (input : List Char) : Option (List Item) :=
  runLex fuel STag.line (mkLexState input)

/-! ### Parser (`src/unnamed/part_001`, third revision) -/

/-- Parse errors, one constructor per error site in the source.
`expectedGotNil` and `expectedWrongType` carry the same message text in Go
(`"expected one of %v, got nil token"`, for both the nil-token and the
wrong-type branch of `expect`). -/
inductive PErr where
  | expectedGotNil (types : List ItemType)
  | expectedWrongType (types : List ItemType) (got : Item)
  | meterUnexpected (got : Item)
  | unhandled
deriving DecidableEq, Repr

/-- Outcome of one handler: `nil` error, a returned error, or a Go panic from
dereferencing the nil `currentTune` pointer. -/
inductive HStep where
  | ok
  | err (e : PErr)
  | crash
deriving DecidableEq, Repr

/-- Outcome of `parse()`: the tune slice, or the error (Go returns `nil, err`,
so no partial tunes accompany an error), or a panic. -/
inductive PResult where
  | ok (tunes : List Tune)
  | err (e : PErr)
  | crash
deriving DecidableEq, Repr

/-- parser: remaining items stand in for the lexer (`nextItem` returns nil
exactly when the channel is exhausted and closed), plus `tunes` and
`currentTune`. -/
structure PState where
  items : List Item
  tunes : List Tune := []
  currentTune : Option Tune := none
deriving DecidableEq, Repr

/-- `p.lexer.nextItem()`. -/
def pNextItem (st : PState) : Option Item × PState :=
  match st.items with
  | [] => (none, st)
  | i :: rest => (some i, { st with items := rest })

/-- expect: read one item, succeed iff its type is among `types`. -/
def pExpect (types : List ItemType) (st : PState) : Except PErr Item × PState :=
  match pNextItem st with
  | (none, st) => (.error (.expectedGotNil types), st)
  | (some i, st) =>
    if types.contains i.typ then (.ok i, st)
    else (.error (.expectedWrongType types i), st)

/-- expectNewline. -/
def pExpectNewline (st : PState) : Except PErr Unit × PState :=
  match pExpect [itemNewline] st with
  | (.error e, st) => (.error e, st)
  | (.ok _, st) => (.ok (), st)

/-- The item-list effect of consumeToNewline's `for` loop: drop items up to
and including the first newline (or everything, when none remains). -/
def dropThroughNewline : List Item → List Item
  | [] => []
  | i :: rest => if i.typ = itemNewline then rest else dropThroughNewline rest

/-- consumeToNewline (always returns `nil` in Go). -/
def pConsumeToNewline (st : PState) : PState :=
  { st with items := dropThroughNewline st.items }

/-- expectString: `return item.val, p.expectNewline()` — the value is returned
even when the newline expectation fails ("" when the string expectation
fails). -/
def pExpectString (st : PState) : (List Char × Option PErr) × PState :=
  match pExpect [itemString] st with
  | (.error e, st) => (([], some e), st)
  | (.ok i, st) =>
    match pExpectNewline st with
    | (.error e, st) => ((i.val, some e), st)
    | (.ok _, st) => ((i.val, none), st)

/-- The `p.currentTune.Field, err = p.expectString(); return err` pattern of
the scalar string fields (A B C D F G O R S T Z).  Go evaluates the call
first, then performs the assignment — which panics when `currentTune` is nil,
even on an error result — then returns `err`. -/
def scalarStringField (set : Tune → List Char → Tune) (st : PState) :
    HStep × PState :=
  match pExpectString st with
  | ((v, e), st) =>
    match st.currentTune with
    | none => (.crash, st)
    | some t =>
      let st := { st with currentTune := some (set t v) }
      match e with
      | some err => (.err err, st)
      | none => (.ok, st)

/-- The addHistory/addNotes/addWordsAfterTune pattern: expect a string (an
expectation error returns before touching `currentTune`), then append —
which panics when `currentTune` is nil — then expect the newline. -/
def listAppendField (app : Tune → List Char → Tune) (st : PState) :
    HStep × PState :=
  match pExpect [itemString] st with
  | (.error e, st) => (.err e, st)
  | (.ok i, st) =>
    match st.currentTune with
    | none => (.crash, st)
    | some t =>
      let st := { st with currentTune := some (app t i.val) }
      match pExpectNewline st with
      | (.error e, st) => (.err e, st)
      | (.ok _, st) => (.ok, st)

/-- setNoteLength: number, divide, number, assign (nil panic), then discard
through the newline. -/
def setNoteLength (st : PState) : HStep × PState :=
  match pExpect [itemNumber] st with
  | (.error e, st) => (.err e, st)
  | (.ok i, st) =>
    let num := goAtoi i.val
    match pExpect [itemDivide] st with
    | (.error e, st) => (.err e, st)
    | (.ok _, st) =>
      match pExpect [itemNumber] st with
      | (.error e, st) => (.err e, st)
      | (.ok i3, st) =>
        let den := goAtoi i3.val
        match st.currentTune with
        | none => (.crash, st)
        | some t =>
          let st := { st with
            currentTune := some { t with NoteLength := ⟨num, den⟩ } }
          (.ok, pConsumeToNewline st)

/-- setMeter's numerator loop: items until nil or a divide; numbers are
collected (via Atoi), plus items are skipped, anything else is an error. -/
def meterNums : List Item → List Int → Except PErr (List Int) × List Item
  | [], acc => (.ok acc, [])
  | i :: rest, acc =>
    if i.typ = itemDivide then (.ok acc, rest)
    else if i.typ = itemNumber then meterNums rest (acc ++ [goAtoi i.val])
    else if i.typ = itemPlus then meterNums rest acc
    else (.error (.meterUnexpected i), rest)

/-- setMeter: numerator loop, denominator expectation, assign (nil panic),
then discard through the newline. -/
def setMeter (st : PState) : HStep × PState :=
  match meterNums st.items [] with
  | (.error e, rest) => (.err e, { st with items := rest })
  | (.ok nums, rest) =>
    match pExpect [itemNumber] { st with items := rest } with
    | (.error e, st) => (.err e, st)
    | (.ok i, st) =>
      let den := goAtoi i.val
      match st.currentTune with
      | none => (.crash, st)
      | some t =>
        let st := { st with currentTune := some { t with Meter := ⟨nums, den⟩ } }
        (.ok, pConsumeToNewline st)

/-- setSequence: expect a number; flush any in-progress tune to the output;
start a fresh accumulator holding only the sequence number; expect newline. -/
def setSequence (st : PState) : HStep × PState :=
  match pExpect [itemNumber] st with
  | (.error e, st) => (.err e, st)
  | (.ok i, st) =>
    let st := match st.currentTune with
              | some t => { st with tunes := st.tunes ++ [t] }
              | none => st
    let st := { st with
      currentTune := some { emptyTune with Sequence := goAtoi i.val } }
    match pExpectNewline st with
    | (.error e, st) => (.err e, st)
    | (.ok _, st) => (.ok, st)

/-- handleFieldName: the switch on `item.val`, cases in source order; any
other value falls through to `errors.New("unhandled")`. -/
def handleFieldName (i : Item) (st : PState) : HStep × PState :=
  if i.val = [headerA] then
    scalarStringField (fun t v => { t with Area := v }) st
  else if i.val = [headerB] then
    scalarStringField (fun t v => { t with Book := v }) st
  else if i.val = [headerC] then
    scalarStringField (fun t v => { t with Composer := v }) st
  else if i.val = [headerD] then
    scalarStringField (fun t v => { t with Discography := v }) st
  else if i.val = [headerF] then
    scalarStringField (fun t v => { t with FileURL := v }) st
  else if i.val = [headerG] then
    scalarStringField (fun t v => { t with Group := v }) st
  else if i.val = [headerH] then
    listAppendField (fun t v => { t with History := t.History ++ [v] }) st
  else if i.val = [headerI] then (.ok, pConsumeToNewline st)
  else if i.val = [headerK] then (.ok, pConsumeToNewline st)
  else if i.val = [headerL] then setNoteLength st
  else if i.val = [headerM] then setMeter st
  else if i.val = [headerm] then (.ok, pConsumeToNewline st)
  else if i.val = [headerN] then
    listAppendField (fun t v => { t with Comments := t.Comments ++ [v] }) st
  else if i.val = [headerO] then
    scalarStringField (fun t v => { t with Origin := v }) st
  else if i.val = [headerP] then (.ok, pConsumeToNewline st)
  else if i.val = [headerQ] then (.ok, pConsumeToNewline st)
  else if i.val = [headerR] then
    scalarStringField (fun t v => { t with Rhythm := v }) st
  else if i.val = [headerr] then (.ok, pConsumeToNewline st)
  else if i.val = [headerS] then
    scalarStringField (fun t v => { t with Source := v }) st
  else if i.val = [headers] then (.ok, pConsumeToNewline st)
  else if i.val = [headerT] then
    scalarStringField (fun t v => { t with Title := v }) st
  else if i.val = [headerU] then (.ok, pConsumeToNewline st)
  else if i.val = [headerV] then (.ok, pConsumeToNewline st)
  else if i.val = [headerW] then
    listAppendField (fun t v => { t with WordsAfterTune := t.WordsAfterTune ++ [v] }) st
  else if i.val = [headerw] then (.ok, pConsumeToNewline st)
  else if i.val = [headerX] then setSequence st
  else if i.val = [headerZ] then
    scalarStringField (fun t v => { t with Transcription := v }) st
  else (.err .unhandled, st)

/-- handleItem: only field-name items are acted on. -/
def handleItem (i : Item) (st : PState) : HStep × PState :=
  if i.typ = itemFieldName then handleFieldName i st else (.ok, st)

theorem pExpect_le (types : List ItemType) (st : PState) :
    (pExpect types st).2.items.length ≤ st.items.length := by
  cases h : st.items with
  | nil => simp [pExpect, pNextItem, h]
  | cons i rest =>
    simp only [pExpect, pNextItem, h]
    split <;> simp <;> omega

theorem pExpectNewline_le (st : PState) :
    (pExpectNewline st).2.items.length ≤ st.items.length := by
  unfold pExpectNewline
  have := pExpect_le [itemNewline] st
  cases h : pExpect [itemNewline] st with
  | mk r st' => rw [h] at this; cases r <;> simpa using this

theorem dropThroughNewline_le (xs : List Item) :
    (dropThroughNewline xs).length ≤ xs.length := by
  induction xs with
  | nil => simp [dropThroughNewline]
  | cons i rest ih =>
    unfold dropThroughNewline
    split <;> simp <;> omega

theorem pExpectString_le (st : PState) :
    (pExpectString st).2.items.length ≤ st.items.length := by
  unfold pExpectString
  cases h : pExpect [itemString] st with
  | mk r st' =>
    have h1 := pExpect_le [itemString] st
    rw [h] at h1
    cases r with
    | error e => simpa using h1
    | ok i =>
      cases h3 : pExpectNewline st' with
      | mk r2 st'' =>
        have h2 := pExpectNewline_le st'
        rw [h3] at h2
        simp at h1 h2
        simp only [h3]
        cases r2 <;> simp <;> omega

theorem scalarStringField_le (f : Tune → List Char → Tune) (st : PState) :
    (scalarStringField f st).2.items.length ≤ st.items.length := by
  unfold scalarStringField
  cases h : pExpectString st with
  | mk ve st' =>
    have h1 := pExpectString_le st
    rw [h] at h1
    obtain ⟨v, e⟩ := ve
    cases hct : st'.currentTune with
    | none => simpa [hct] using h1
    | some t => cases e <;> simpa [hct] using h1

theorem listAppendField_le (f : Tune → List Char → Tune) (st : PState) :
    (listAppendField f st).2.items.length ≤ st.items.length := by
  unfold listAppendField
  cases h : pExpect [itemString] st with
  | mk r st' =>
    have h1 := pExpect_le [itemString] st
    rw [h] at h1
    cases r with
    | error e => simpa using h1
    | ok i =>
      cases hct : st'.currentTune with
      | none => simpa [hct] using h1
      | some t =>
        cases h3 : pExpectNewline { st' with currentTune := some (f t i.val) } with
        | mk r2 st'' =>
          have h2 := pExpectNewline_le { st' with currentTune := some (f t i.val) }
          rw [h3] at h2
          simp at h1 h2
          simp only [hct, h3]
          cases r2 <;> simp <;> omega

theorem setNoteLength_le (st : PState) :
    (setNoteLength st).2.items.length ≤ st.items.length := by
  unfold setNoteLength
  cases h1 : pExpect [itemNumber] st with
  | mk r1 st1 =>
    have e1 := pExpect_le [itemNumber] st
    rw [h1] at e1; simp at e1
    cases r1 with
    | error e => simpa using e1
    | ok i =>
      cases h2 : pExpect [itemDivide] st1 with
      | mk r2 st2 =>
        have e2 := pExpect_le [itemDivide] st1
        rw [h2] at e2; simp at e2
        simp only [h2]
        cases r2 with
        | error e => simp; omega
        | ok j =>
          cases h3 : pExpect [itemNumber] st2 with
          | mk r3 st3 =>
            have e3 := pExpect_le [itemNumber] st2
            rw [h3] at e3; simp at e3
            simp only [h3]
            cases r3 with
            | error e => simp; omega
            | ok k =>
              cases hct : st3.currentTune with
              | none => simp [hct]; omega
              | some t =>
                have e4 := dropThroughNewline_le st3.items
                simp [hct, pConsumeToNewline]
                omega

theorem meterNums_le (xs : List Item) (acc : List Int) :
    (meterNums xs acc).2.length ≤ xs.length := by
  induction xs generalizing acc with
  | nil => simp [meterNums]
  | cons i rest ih =>
    unfold meterNums
    split_ifs with h1 h2 h3
    · simp
    · have := ih (acc ++ [goAtoi i.val]); simp; omega
    · have := ih acc; simp; omega
    · simp

theorem setMeter_le (st : PState) :
    (setMeter st).2.items.length ≤ st.items.length := by
  unfold setMeter
  cases h1 : meterNums st.items [] with
  | mk r rest =>
    have e1 := meterNums_le st.items []
    rw [h1] at e1; simp at e1
    cases r with
    | error e => simpa using e1
    | ok nums =>
      cases h2 : pExpect [itemNumber] { st with items := rest } with
      | mk r2 st2 =>
        have e2 := pExpect_le [itemNumber] { st with items := rest }
        rw [h2] at e2; simp at e2
        simp only [h2]
        cases r2 with
        | error e => simp; omega
        | ok i =>
          cases hct : st2.currentTune with
          | none => simp [hct]; omega
          | some t =>
            have e3 := dropThroughNewline_le st2.items
            simp [hct, pConsumeToNewline]
            omega

theorem setSequence_le (st : PState) :
    (setSequence st).2.items.length ≤ st.items.length := by
  unfold setSequence
  cases h1 : pExpect [itemNumber] st with
  | mk r st1 =>
    have e1 := pExpect_le [itemNumber] st
    rw [h1] at e1; simp at e1
    cases r with
    | error e => simpa using e1
    | ok i =>
      cases hct : st1.currentTune with
      | none =>
        cases h2 : pExpectNewline
            { st1 with currentTune := some { emptyTune with Sequence := goAtoi i.val } } with
        | mk r2 st2 =>
          have e2 := pExpectNewline_le
            { st1 with currentTune := some { emptyTune with Sequence := goAtoi i.val } }
          rw [h2] at e2; simp at e2
          simp only [hct, h2]
          cases r2 <;> simp <;> omega
      | some t =>
        cases h2 : pExpectNewline
            { st1 with tunes := st1.tunes ++ [t],
                       currentTune := some { emptyTune with Sequence := goAtoi i.val } } with
        | mk r2 st2 =>
          have e2 := pExpectNewline_le
            { st1 with tunes := st1.tunes ++ [t],
                       currentTune := some { emptyTune with Sequence := goAtoi i.val } }
          rw [h2] at e2; simp at e2
          simp only [hct, h2]
          cases r2 <;> simp <;> omega

theorem pConsumeToNewline_le (st : PState) :
    (pConsumeToNewline st).items.length ≤ st.items.length := by
  simpa [pConsumeToNewline] using dropThroughNewline_le st.items

set_option maxHeartbeats 2000000 in
theorem handleFieldName_le (i : Item) (st : PState) :
    (handleFieldName i st).2.items.length ≤ st.items.length := by
  unfold handleFieldName
  by_cases h0 : i.val = [headerA]
  · rw [if_pos h0]; exact scalarStringField_le _ st
  rw [if_neg h0]
  by_cases h1 : i.val = [headerB]
  · rw [if_pos h1]; exact scalarStringField_le _ st
  rw [if_neg h1]
  by_cases h2 : i.val = [headerC]
  · rw [if_pos h2]; exact scalarStringField_le _ st
  rw [if_neg h2]
  by_cases h3 : i.val = [headerD]
  · rw [if_pos h3]; exact scalarStringField_le _ st
  rw [if_neg h3]
  by_cases h4 : i.val = [headerF]
  · rw [if_pos h4]; exact scalarStringField_le _ st
  rw [if_neg h4]
  by_cases h5 : i.val = [headerG]
  · rw [if_pos h5]; exact scalarStringField_le _ st
  rw [if_neg h5]
  by_cases h6 : i.val = [headerH]
  · rw [if_pos h6]; exact listAppendField_le _ st
  rw [if_neg h6]
  by_cases h7 : i.val = [headerI]
  · rw [if_pos h7]; exact pConsumeToNewline_le st
  rw [if_neg h7]
  by_cases h8 : i.val = [headerK]
  · rw [if_pos h8]; exact pConsumeToNewline_le st
  rw [if_neg h8]
  by_cases h9 : i.val = [headerL]
  · rw [if_pos h9]; exact setNoteLength_le st
  rw [if_neg h9]
  by_cases h10 : i.val = [headerM]
  · rw [if_pos h10]; exact setMeter_le st
  rw [if_neg h10]
  by_cases h11 : i.val = [headerm]
  · rw [if_pos h11]; exact pConsumeToNewline_le st
  rw [if_neg h11]
  by_cases h12 : i.val = [headerN]
  · rw [if_pos h12]; exact listAppendField_le _ st
  rw [if_neg h12]
  by_cases h13 : i.val = [headerO]
  · rw [if_pos h13]; exact scalarStringField_le _ st
  rw [if_neg h13]
  by_cases h14 : i.val = [headerP]
  · rw [if_pos h14]; exact pConsumeToNewline_le st
  rw [if_neg h14]
  by_cases h15 : i.val = [headerQ]
  · rw [if_pos h15]; exact pConsumeToNewline_le st
  rw [if_neg h15]
  by_cases h16 : i.val = [headerR]
  · rw [if_pos h16]; exact scalarStringField_le _ st
  rw [if_neg h16]
  by_cases h17 : i.val = [headerr]
  · rw [if_pos h17]; exact pConsumeToNewline_le st
  rw [if_neg h17]
  by_cases h18 : i.val = [headerS]
  · rw [if_pos h18]; exact scalarStringField_le _ st
  rw [if_neg h18]
  by_cases h19 : i.val = [headers]
  · rw [if_pos h19]; exact pConsumeToNewline_le st
  rw [if_neg h19]
  by_cases h20 : i.val = [headerT]
  · rw [if_pos h20]; exact scalarStringField_le _ st
  rw [if_neg h20]
  by_cases h21 : i.val = [headerU]
  · rw [if_pos h21]; exact pConsumeToNewline_le st
  rw [if_neg h21]
  by_cases h22 : i.val = [headerV]
  · rw [if_pos h22]; exact pConsumeToNewline_le st
  rw [if_neg h22]
  by_cases h23 : i.val = [headerW]
  · rw [if_pos h23]; exact listAppendField_le _ st
  rw [if_neg h23]
  by_cases h24 : i.val = [headerw]
  · rw [if_pos h24]; exact pConsumeToNewline_le st
  rw [if_neg h24]
  by_cases h25 : i.val = [headerX]
  · rw [if_pos h25]; exact setSequence_le st
  rw [if_neg h25]
  by_cases h26 : i.val = [headerZ]
  · rw [if_pos h26]; exact scalarStringField_le _ st
  rw [if_neg h26]

theorem handleItem_le (i : Item) (st : PState) :
    (handleItem i st).2.items.length ≤ st.items.length := by
  unfold handleItem
  split_ifs
  · exact handleFieldName_le i st
  · simp

/-- parse: the main loop (`nextItem` until nil, dispatching to `handleItem`),
then the final flush of any in-progress tune.  An error from a handler aborts
with `nil, err`; a nil dereference is a panic. -/
def parserParse (st : PState) : PResult :=
  match hm : st.items with
  | [] =>
    match st.currentTune with
    | some t => .ok (st.tunes ++ [t])
    | none => .ok st.tunes
  | i :: rest =>
    match hh : handleItem i { st with items := rest } with
    | (.ok, st') => parserParse st'
    | (.err e, _) => .err e
    | (.crash, _) => .crash
termination_by st.items.length
decreasing_by
  have hle := handleItem_le i { st with items := rest }
  rw [hh] at hle
  simp at hle
  rw [hm]
  simp
  omega

/-- `parser{lexer: l}.parse()`: a parse of `items` from the zero parser state. -/
def parseItems (items : List Item) : PResult :=
  parserParse { items := items }

/-- Read, as composed in the source: scan the full input, then parse the item
stream (when the scan diverges the Go parse blocks forever on the channel;
that case surfaces here as `none`). -/
def readGas (fuel : Nat) (input : List Char) : Option PResult :=
  (scanGas fuel input).map parseItems

/-! ### Structural facts about the parser -/

theorem pExpect_state (types : List ItemType) (st : PState) :
    (pExpect types st).2.tunes = st.tunes ∧
      (pExpect types st).2.currentTune = st.currentTune := by
  cases h : st.items with
  | nil => simp [pExpect, pNextItem, h]
  | cons i rest =>
    simp only [pExpect, pNextItem, h]
    split <;> simp

theorem pExpectNewline_state (st : PState) :
    (pExpectNewline st).2.tunes = st.tunes ∧
      (pExpectNewline st).2.currentTune = st.currentTune := by
  unfold pExpectNewline
  cases h : pExpect [itemNewline] st with
  | mk r st' =>
    have hs := pExpect_state [itemNewline] st
    rw [h] at hs
    cases r <;> simpa using hs

theorem pExpectString_state (st : PState) :
    (pExpectString st).2.tunes = st.tunes ∧
      (pExpectString st).2.currentTune = st.currentTune := by
  unfold pExpectString
  cases h : pExpect [itemString] st with
  | mk r st' =>
    have hs := pExpect_state [itemString] st
    rw [h] at hs
    cases r with
    | error e => simpa using hs
    | ok i =>
      cases h2 : pExpectNewline st' with
      | mk r2 st'' =>
        have hs2 := pExpectNewline_state st'
        rw [h2] at hs2
        simp only [h2]
        simp at hs hs2
        cases r2 <;> simp <;> exact ⟨hs2.1.trans hs.1, hs2.2.trans hs.2⟩

theorem pConsumeToNewline_state (st : PState) :
    (pConsumeToNewline st).tunes = st.tunes ∧
      (pConsumeToNewline st).currentTune = st.currentTune := by
  simp [pConsumeToNewline]

theorem scalarStringField_state (f : Tune → List Char → Tune)
    (hf : ∀ t v, (f t v).Sequence = t.Sequence) (st : PState) :
    (scalarStringField f st).2.tunes = st.tunes ∧
      ((scalarStringField f st).2.currentTune).map Tune.Sequence
        = (st.currentTune).map Tune.Sequence := by
  unfold scalarStringField
  cases h : pExpectString st with
  | mk ve st' =>
    have hs := pExpectString_state st
    rw [h] at hs
    simp at hs
    obtain ⟨v, e⟩ := ve
    cases hct : st'.currentTune with
    | none =>
      refine ⟨by simp [hct, hs.1], ?_⟩
      simp only [hct]
      rw [← hs.2, hct]
    | some t =>
      have hseq : st.currentTune = some t := by rw [← hs.2, hct]
      cases e <;> simp [hct, hs.1, hseq, hf]

theorem listAppendField_state (f : Tune → List Char → Tune)
    (hf : ∀ t v, (f t v).Sequence = t.Sequence) (st : PState) :
    (listAppendField f st).2.tunes = st.tunes ∧
      ((listAppendField f st).2.currentTune).map Tune.Sequence
        = (st.currentTune).map Tune.Sequence := by
  unfold listAppendField
  cases h : pExpect [itemString] st with
  | mk r st' =>
    have hs := pExpect_state [itemString] st
    rw [h] at hs
    simp at hs
    cases r with
    | error e => exact ⟨hs.1, by rw [hs.2]⟩
    | ok i =>
      cases hct : st'.currentTune with
      | none =>
        refine ⟨by simp [hct, hs.1], ?_⟩
        simp only [hct]
        rw [← hs.2, hct]
      | some t =>
        have hseq : st.currentTune = some t := by rw [← hs.2, hct]
        cases h2 : pExpectNewline { st' with currentTune := some (f t i.val) } with
        | mk r2 st'' =>
          have hs2 := pExpectNewline_state { st' with currentTune := some (f t i.val) }
          rw [h2] at hs2
          simp at hs2
          simp only [hct, h2]
          cases r2 <;> simp [hs2.1, hs2.2, hs.1, hseq, hf]

theorem setNoteLength_state (st : PState) :
    (setNoteLength st).2.tunes = st.tunes ∧
      ((setNoteLength st).2.currentTune).map Tune.Sequence
        = (st.currentTune).map Tune.Sequence := by
  unfold setNoteLength
  cases h1 : pExpect [itemNumber] st with
  | mk r1 st1 =>
    have e1 := pExpect_state [itemNumber] st
    rw [h1] at e1; simp at e1
    cases r1 with
    | error e => exact ⟨e1.1, by rw [e1.2]⟩
    | ok i =>
      cases h2 : pExpect [itemDivide] st1 with
      | mk r2 st2 =>
        have e2 := pExpect_state [itemDivide] st1
        rw [h2] at e2; simp at e2
        simp only [h2]
        cases r2 with
        | error e => exact ⟨e2.1.trans e1.1, by rw [e2.2, e1.2]⟩
        | ok j =>
          cases h3 : pExpect [itemNumber] st2 with
          | mk r3 st3 =>
            have e3 := pExpect_state [itemNumber] st2
            rw [h3] at e3; simp at e3
            simp only [h3]
            cases r3 with
            | error e => exact ⟨e3.1.trans (e2.1.trans e1.1), by rw [e3.2, e2.2, e1.2]⟩
            | ok k =>
              have hcur : st3.currentTune = st.currentTune := by
                rw [e3.2, e2.2, e1.2]
              cases hct : st3.currentTune with
              | none =>
                refine ⟨by simp [hct, e3.1, e2.1, e1.1], ?_⟩
                simp only [hct]
                rw [← hcur, hct]
              | some t =>
                have hseq : st.currentTune = some t := by rw [← hcur, hct]
                simp [hct, pConsumeToNewline, e3.1, e2.1, e1.1, hseq]

theorem setMeter_state (st : PState) :
    (setMeter st).2.tunes = st.tunes ∧
      ((setMeter st).2.currentTune).map Tune.Sequence
        = (st.currentTune).map Tune.Sequence := by
  unfold setMeter
  cases h1 : meterNums st.items [] with
  | mk r rest =>
    cases r with
    | error e => simp
    | ok nums =>
      cases h2 : pExpect [itemNumber] { st with items := rest } with
      | mk r2 st2 =>
        have e2 := pExpect_state [itemNumber] { st with items := rest }
        rw [h2] at e2; simp at e2
        simp only [h2]
        cases r2 with
        | error e => exact ⟨e2.1, by rw [e2.2]⟩
        | ok i =>
          cases hct : st2.currentTune with
          | none =>
            refine ⟨by simp [hct, e2.1], ?_⟩
            simp only [hct]
            rw [← e2.2, hct]
          | some t =>
            have hseq : st.currentTune = some t := by rw [← e2.2, hct]
            simp [hct, pConsumeToNewline, e2.1, hseq]

/-- C2's core fact about setSequence, proved once and reused: on a leading
number item it appends the in-progress tune (if any) to the output and starts
a fresh accumulator holding only the new sequence number. -/
theorem setSequence_spec (st : PState) (i : Item) (rest : List Item)
    (hm : st.items = i :: rest) (ht : i.typ = itemNumber) :
    (setSequence st).2.tunes = st.tunes ++ st.currentTune.toList ∧
      (setSequence st).2.currentTune
        = some { emptyTune with Sequence := goAtoi i.val } := by
  unfold setSequence
  have hexp : pExpect [itemNumber] st = (.ok i, { st with items := rest }) := by
    simp [pExpect, pNextItem, hm, ht]
  rw [hexp]
  cases hct : st.currentTune with
  | none =>
    cases h2 : pExpectNewline
        { st with items := rest,
                  currentTune := some { emptyTune with Sequence := goAtoi i.val } } with
    | mk r2 st2 =>
      have hs2 := pExpectNewline_state
        { st with items := rest,
                  currentTune := some { emptyTune with Sequence := goAtoi i.val } }
      rw [h2] at hs2; simp at hs2
      simp only [hct, h2]
      cases r2 <;> simp [hs2.1, hs2.2]
  | some t =>
    cases h2 : pExpectNewline
        { st with items := rest, tunes := st.tunes ++ [t],
                  currentTune := some { emptyTune with Sequence := goAtoi i.val } } with
    | mk r2 st2 =>
      have hs2 := pExpectNewline_state
        { st with items := rest, tunes := st.tunes ++ [t],
                  currentTune := some { emptyTune with Sequence := goAtoi i.val } }
      rw [h2] at hs2; simp at hs2
      simp only [hct, h2]
      cases r2 <;> simp [hs2.1, hs2.2]

/-- setSequence only ever extends the output by appending. -/
theorem setSequence_tunes (st : PState) :
    ∃ ex, (setSequence st).2.tunes = st.tunes ++ ex := by
  unfold setSequence
  cases h1 : pExpect [itemNumber] st with
  | mk r st1 =>
    have e1 := pExpect_state [itemNumber] st
    rw [h1] at e1; simp at e1
    cases r with
    | error e => exact ⟨[], by simp [e1.1]⟩
    | ok i =>
      cases hct : st1.currentTune with
      | none =>
        cases h2 : pExpectNewline
            { st1 with currentTune := some { emptyTune with Sequence := goAtoi i.val } } with
        | mk r2 st2 =>
          have hs2 := pExpectNewline_state
            { st1 with currentTune := some { emptyTune with Sequence := goAtoi i.val } }
          rw [h2] at hs2; simp at hs2
          simp only [hct, h2]
          refine ⟨[], ?_⟩
          cases r2 <;> simp [hs2.1, e1.1]
      | some t =>
        cases h2 : pExpectNewline
            { st1 with tunes := st1.tunes ++ [t],
                       currentTune := some { emptyTune with Sequence := goAtoi i.val } } with
        | mk r2 st2 =>
          have hs2 := pExpectNewline_state
            { st1 with tunes := st1.tunes ++ [t],
                       currentTune := some { emptyTune with Sequence := goAtoi i.val } }
          rw [h2] at hs2; simp at hs2
          simp only [hct, h2]
          refine ⟨[t], ?_⟩
          cases r2 <;> simp [hs2.1, e1.1]

/-- Every handler leaves the already-flushed output as a prefix: `tunes` is
only ever appended to. -/
theorem handleFieldName_tunes (i : Item) (st : PState) :
    ∃ ex, (handleFieldName i st).2.tunes = st.tunes ++ ex := by
  unfold handleFieldName
  by_cases h0 : i.val = [headerA]
  · rw [if_pos h0]
    exact ⟨[], by
      simpa using (scalarStringField_state (fun t v => { t with Area := v })
        (fun t v => rfl) st).1⟩
  rw [if_neg h0]
  by_cases h1 : i.val = [headerB]
  · rw [if_pos h1]
    exact ⟨[], by
      simpa using (scalarStringField_state (fun t v => { t with Book := v })
        (fun t v => rfl) st).1⟩
  rw [if_neg h1]
  by_cases h2 : i.val = [headerC]
  · rw [if_pos h2]
    exact ⟨[], by
      simpa using (scalarStringField_state (fun t v => { t with Composer := v })
        (fun t v => rfl) st).1⟩
  rw [if_neg h2]
  by_cases h3 : i.val = [headerD]
  · rw [if_pos h3]
    exact ⟨[], by
      simpa using (scalarStringField_state (fun t v => { t with Discography := v })
        (fun t v => rfl) st).1⟩
  rw [if_neg h3]
  by_cases h4 : i.val = [headerF]
  · rw [if_pos h4]
    exact ⟨[], by
      simpa using (scalarStringField_state (fun t v => { t with FileURL := v })
        (fun t v => rfl) st).1⟩
  rw [if_neg h4]
  by_cases h5 : i.val = [headerG]
  · rw [if_pos h5]
    exact ⟨[], by
      simpa using (scalarStringField_state (fun t v => { t with Group := v })
        (fun t v => rfl) st).1⟩
  rw [if_neg h5]
  by_cases h6 : i.val = [headerH]
  · rw [if_pos h6]
    exact ⟨[], by
      simpa using (listAppendField_state (fun t v => { t with History := t.History ++ [v] })
        (fun t v => rfl) st).1⟩
  rw [if_neg h6]
  by_cases h7 : i.val = [headerI]
  · rw [if_pos h7]
    exact ⟨[], by simp [pConsumeToNewline]⟩
  rw [if_neg h7]
  by_cases h8 : i.val = [headerK]
  · rw [if_pos h8]
    exact ⟨[], by simp [pConsumeToNewline]⟩
  rw [if_neg h8]
  by_cases h9 : i.val = [headerL]
  · rw [if_pos h9]
    exact ⟨[], by simpa using (setNoteLength_state st).1⟩
  rw [if_neg h9]
  by_cases h10 : i.val = [headerM]
  · rw [if_pos h10]
    exact ⟨[], by simpa using (setMeter_state st).1⟩
  rw [if_neg h10]
  by_cases h11 : i.val = [headerm]
  · rw [if_pos h11]
    exact ⟨[], by simp [pConsumeToNewline]⟩
  rw [if_neg h11]
  by_cases h12 : i.val = [headerN]
  · rw [if_pos h12]
    exact ⟨[], by
      simpa using (listAppendField_state (fun t v => { t with Comments := t.Comments ++ [v] })
        (fun t v => rfl) st).1⟩
  rw [if_neg h12]
  by_cases h13 : i.val = [headerO]
  · rw [if_pos h13]
    exact ⟨[], by
      simpa using (scalarStringField_state (fun t v => { t with Origin := v })
        (fun t v => rfl) st).1⟩
  rw [if_neg h13]
  by_cases h14 : i.val = [headerP]
  · rw [if_pos h14]
    exact ⟨[], by simp [pConsumeToNewline]⟩
  rw [if_neg h14]
  by_cases h15 : i.val = [headerQ]
  · rw [if_pos h15]
    exact ⟨[], by simp [pConsumeToNewline]⟩
  rw [if_neg h15]
  by_cases h16 : i.val = [headerR]
  · rw [if_pos h16]
    exact ⟨[], by
      simpa using (scalarStringField_state (fun t v => { t with Rhythm := v })
        (fun t v => rfl) st).1⟩
  rw [if_neg h16]
  by_cases h17 : i.val = [headerr]
  · rw [if_pos h17]
    exact ⟨[], by simp [pConsumeToNewline]⟩
  rw [if_neg h17]
  by_cases h18 : i.val = [headerS]
  · rw [if_pos h18]
    exact ⟨[], by
      simpa using (scalarStringField_state (fun t v => { t with Source := v })
        (fun t v => rfl) st).1⟩
  rw [if_neg h18]
  by_cases h19 : i.val = [headers]
  · rw [if_pos h19]
    exact ⟨[], by simp [pConsumeToNewline]⟩
  rw [if_neg h19]
  by_cases h20 : i.val = [headerT]
  · rw [if_pos h20]
    exact ⟨[], by
      simpa using (scalarStringField_state (fun t v => { t with Title := v })
        (fun t v => rfl) st).1⟩
  rw [if_neg h20]
  by_cases h21 : i.val = [headerU]
  · rw [if_pos h21]
    exact ⟨[], by simp [pConsumeToNewline]⟩
  rw [if_neg h21]
  by_cases h22 : i.val = [headerV]
  · rw [if_pos h22]
    exact ⟨[], by simp [pConsumeToNewline]⟩
  rw [if_neg h22]
  by_cases h23 : i.val = [headerW]
  · rw [if_pos h23]
    exact ⟨[], by
      simpa using (listAppendField_state (fun t v => { t with WordsAfterTune := t.WordsAfterTune ++ [v] })
        (fun t v => rfl) st).1⟩
  rw [if_neg h23]
  by_cases h24 : i.val = [headerw]
  · rw [if_pos h24]
    exact ⟨[], by simp [pConsumeToNewline]⟩
  rw [if_neg h24]
  by_cases h25 : i.val = [headerX]
  · rw [if_pos h25]
    exact setSequence_tunes st
  rw [if_neg h25]
  by_cases h26 : i.val = [headerZ]
  · rw [if_pos h26]
    exact ⟨[], by
      simpa using (scalarStringField_state (fun t v => { t with Transcription := v })
        (fun t v => rfl) st).1⟩
  rw [if_neg h26]
  exact ⟨[], by simp⟩

/-- No handler other than the sequence-number field changes the sequence
number of the in-progress tune (nor replaces the accumulator). -/
theorem handleFieldName_seq (i : Item) (st : PState) (hx : i.val ≠ [headerX]) :
    ((handleFieldName i st).2.currentTune).map Tune.Sequence
      = (st.currentTune).map Tune.Sequence := by
  unfold handleFieldName
  by_cases h0 : i.val = [headerA]
  · rw [if_pos h0]
    exact (scalarStringField_state (fun t v => { t with Area := v })
      (fun t v => rfl) st).2
  rw [if_neg h0]
  by_cases h1 : i.val = [headerB]
  · rw [if_pos h1]
    exact (scalarStringField_state (fun t v => { t with Book := v })
      (fun t v => rfl) st).2
  rw [if_neg h1]
  by_cases h2 : i.val = [headerC]
  · rw [if_pos h2]
    exact (scalarStringField_state (fun t v => { t with Composer := v })
      (fun t v => rfl) st).2
  rw [if_neg h2]
  by_cases h3 : i.val = [headerD]
  · rw [if_pos h3]
    exact (scalarStringField_state (fun t v => { t with Discography := v })
      (fun t v => rfl) st).2
  rw [if_neg h3]
  by_cases h4 : i.val = [headerF]
  · rw [if_pos h4]
    exact (scalarStringField_state (fun t v => { t with FileURL := v })
      (fun t v => rfl) st).2
  rw [if_neg h4]
  by_cases h5 : i.val = [headerG]
  · rw [if_pos h5]
    exact (scalarStringField_state (fun t v => { t with Group := v })
      (fun t v => rfl) st).2
  rw [if_neg h5]
  by_cases h6 : i.val = [headerH]
  · rw [if_pos h6]
    exact (listAppendField_state (fun t v => { t with History := t.History ++ [v] })
      (fun t v => rfl) st).2
  rw [if_neg h6]
  by_cases h7 : i.val = [headerI]
  · rw [if_pos h7]
    simp [pConsumeToNewline]
  rw [if_neg h7]
  by_cases h8 : i.val = [headerK]
  · rw [if_pos h8]
    simp [pConsumeToNewline]
  rw [if_neg h8]
  by_cases h9 : i.val = [headerL]
  · rw [if_pos h9]
    exact (setNoteLength_state st).2
  rw [if_neg h9]
  by_cases h10 : i.val = [headerM]
  · rw [if_pos h10]
    exact (setMeter_state st).2
  rw [if_neg h10]
  by_cases h11 : i.val = [headerm]
  · rw [if_pos h11]
    simp [pConsumeToNewline]
  rw [if_neg h11]
  by_cases h12 : i.val = [headerN]
  · rw [if_pos h12]
    exact (listAppendField_state (fun t v => { t with Comments := t.Comments ++ [v] })
      (fun t v => rfl) st).2
  rw [if_neg h12]
  by_cases h13 : i.val = [headerO]
  · rw [if_pos h13]
    exact (scalarStringField_state (fun t v => { t with Origin := v })
      (fun t v => rfl) st).2
  rw [if_neg h13]
  by_cases h14 : i.val = [headerP]
  · rw [if_pos h14]
    simp [pConsumeToNewline]
  rw [if_neg h14]
  by_cases h15 : i.val = [headerQ]
  · rw [if_pos h15]
    simp [pConsumeToNewline]
  rw [if_neg h15]
  by_cases h16 : i.val = [headerR]
  · rw [if_pos h16]
    exact (scalarStringField_state (fun t v => { t with Rhythm := v })
      (fun t v => rfl) st).2
  rw [if_neg h16]
  by_cases h17 : i.val = [headerr]
  · rw [if_pos h17]
    simp [pConsumeToNewline]
  rw [if_neg h17]
  by_cases h18 : i.val = [headerS]
  · rw [if_pos h18]
    exact (scalarStringField_state (fun t v => { t with Source := v })
      (fun t v => rfl) st).2
  rw [if_neg h18]
  by_cases h19 : i.val = [headers]
  · rw [if_pos h19]
    simp [pConsumeToNewline]
  rw [if_neg h19]
  by_cases h20 : i.val = [headerT]
  · rw [if_pos h20]
    exact (scalarStringField_state (fun t v => { t with Title := v })
      (fun t v => rfl) st).2
  rw [if_neg h20]
  by_cases h21 : i.val = [headerU]
  · rw [if_pos h21]
    simp [pConsumeToNewline]
  rw [if_neg h21]
  by_cases h22 : i.val = [headerV]
  · rw [if_pos h22]
    simp [pConsumeToNewline]
  rw [if_neg h22]
  by_cases h23 : i.val = [headerW]
  · rw [if_pos h23]
    exact (listAppendField_state (fun t v => { t with WordsAfterTune := t.WordsAfterTune ++ [v] })
      (fun t v => rfl) st).2
  rw [if_neg h23]
  by_cases h24 : i.val = [headerw]
  · rw [if_pos h24]
    simp [pConsumeToNewline]
  rw [if_neg h24]
  by_cases h25 : i.val = [headerX]
  · exact absurd h25 hx
  rw [if_neg h25]
  by_cases h26 : i.val = [headerZ]
  · rw [if_pos h26]
    exact (scalarStringField_state (fun t v => { t with Transcription := v })
      (fun t v => rfl) st).2
  rw [if_neg h26]

theorem handleItem_tunes (i : Item) (st : PState) :
    ∃ ex, (handleItem i st).2.tunes = st.tunes ++ ex := by
  unfold handleItem
  by_cases h : i.typ = itemFieldName
  · rw [if_pos h]; exact handleFieldName_tunes i st
  · rw [if_neg h]; exact ⟨[], by simp⟩

theorem handleItem_seq (i : Item) (st : PState) (hx : i.val ≠ [headerX]) :
    ((handleItem i st).2.currentTune).map Tune.Sequence
      = (st.currentTune).map Tune.Sequence := by
  unfold handleItem
  by_cases h : i.typ = itemFieldName
  · rw [if_pos h]; exact handleFieldName_seq i st hx
  · rw [if_neg h]

/-- The loop exit: with no item left, any in-progress tune is appended. -/
theorem parserParse_nil (tunes : List Tune) (cur : Option Tune) :
    parserParse ⟨[], tunes, cur⟩ = .ok (tunes ++ cur.toList) := by
  rw [parserParse]
  cases cur <;> simp

/-- Non-field-name items are inert at the top level of the parse loop. -/
theorem parserParse_skips (items : List Item) :
    ∀ (tunes : List Tune) (cur : Option Tune),
      (∀ i ∈ items, i.typ ≠ itemFieldName) →
      parserParse ⟨items, tunes, cur⟩ = .ok (tunes ++ cur.toList) := by
  induction items with
  | nil => intro tunes cur _; exact parserParse_nil tunes cur
  | cons i rest ih =>
    intro tunes cur h
    have hi : i.typ ≠ itemFieldName := h i (List.mem_cons_self _ _)
    have hh : handleItem i { items := rest, tunes := tunes, currentTune := cur }
        = (.ok, { items := rest, tunes := tunes, currentTune := cur }) := by
      simp [handleItem, hi]
    rw [parserParse]
    dsimp only
    split
    · next st' heq =>
      rw [hh] at heq
      simp only [Prod.mk.injEq] at heq
      rw [← heq.2]
      exact ih tunes cur (fun j hj => h j (List.mem_cons_of_mem _ hj))
    · next e snd heq => rw [hh] at heq; simp at heq
    · next snd heq => rw [hh] at heq; simp at heq

/-- Whatever the remaining items do, a successful parse only appends to the
already-accumulated output: tunes already flushed are never modified. -/
theorem parserParse_prefix : ∀ (n : Nat) (st : PState) (out : List Tune),
    st.items.length ≤ n → parserParse st = .ok out →
    ∃ ex, out = st.tunes ++ ex := by
  intro n
  induction n with
  | zero =>
    intro st out hlen hp
    obtain ⟨items, tunes, cur⟩ := st
    simp at hlen
    subst hlen
    rw [parserParse_nil] at hp
    simp at hp
    exact ⟨cur.toList, hp.symm⟩
  | succ n ih =>
    intro st out hlen hp
    obtain ⟨items, tunes, cur⟩ := st
    cases items with
    | nil =>
      rw [parserParse_nil] at hp
      simp at hp
      exact ⟨cur.toList, hp.symm⟩
    | cons i rest =>
      simp at hlen
      rw [parserParse] at hp
      dsimp only at hp
      split at hp
      · next st' heq =>
        have hle := handleItem_le i ⟨rest, tunes, cur⟩
        rw [heq] at hle
        simp at hle
        obtain ⟨ex1, hex1⟩ := handleItem_tunes i ⟨rest, tunes, cur⟩
        rw [heq] at hex1
        simp at hex1
        obtain ⟨ex2, hex2⟩ := ih st' out (by omega) hp
        exact ⟨ex1 ++ ex2, by rw [hex2, hex1]; simp⟩
      · next e snd heq => simp at hp
      · next snd heq => simp at hp

/-- One unfolding of the parse loop on a non-empty item list. -/
theorem parserParse_cons_eq (i : Item) (rest : List Item) (tunes : List Tune)
    (cur : Option Tune) (r : HStep) (st' : PState)
    (hh : handleItem i ⟨rest, tunes, cur⟩ = (r, st')) :
    parserParse ⟨i :: rest, tunes, cur⟩
      = (match r with
         | .ok => parserParse st'
         | .err e => .err e
         | .crash => .crash) := by
  cases r with
  | ok =>
    rw [parserParse]
    dsimp only
    split
    · next st2 heq =>
      rw [hh] at heq
      simp only [Prod.mk.injEq] at heq
      rw [heq.2]
    · next e snd heq => rw [hh] at heq; simp at heq
    · next snd heq => rw [hh] at heq; simp at heq
  | err e =>
    rw [parserParse]
    dsimp only
    split
    · next st2 heq => rw [hh] at heq; simp at heq
    · next e2 snd heq =>
      rw [hh] at heq
      simp only [Prod.mk.injEq, HStep.err.injEq] at heq
      rw [heq.1]
    · next snd heq => rw [hh] at heq; simp at heq
  | crash =>
    rw [parserParse]
    dsimp only
    split
    · next st2 heq => rw [hh] at heq; simp at heq
    · next e2 snd heq => rw [hh] at heq; simp at heq
    · next snd heq => rfl

/-- The meter numerator loop over a run of number/plus items followed by a
divide: numbers are collected in order, plus items are skipped, and the items
after the divide are left unconsumed. -/
theorem meterNums_run (pre : List Item)
    (hpre : ∀ j ∈ pre, j.typ = itemNumber ∨ j.typ = itemPlus)
    (divi : Item) (hd : divi.typ = itemDivide) (tail : List Item) :
    ∀ acc, meterNums (pre ++ divi :: tail) acc
      = (.ok (acc ++ pre.filterMap
          (fun j => if j.typ = itemNumber then some (goAtoi j.val) else none)),
         tail) := by
  induction pre with
  | nil => intro acc; simp [meterNums, hd]
  | cons j rest ih =>
    intro acc
    have hj := hpre j (List.mem_cons_self _ _)
    have hrest : ∀ k ∈ rest, k.typ = itemNumber ∨ k.typ = itemPlus :=
      fun k hk => hpre k (List.mem_cons_of_mem _ hk)
    rw [List.cons_append]
    unfold meterNums
    cases hj with
    | inl hnum =>
      simp only [hnum]
      rw [ih hrest]
      simp [hnum]
    | inr hplus =>
      simp [hplus]
      exact ih hrest acc

/-- Full behaviour of setMeter on a well-formed meter token run with the
accumulator present: numbers before the divide become the numerator list in
order, the number after the divide the denominator, and the remaining items
are discarded through the next newline. -/
theorem setMeter_spec (st : PState) (pre : List Item)
    (hpre : ∀ j ∈ pre, j.typ = itemNumber ∨ j.typ = itemPlus)
    (divi d : Item) (hd : divi.typ = itemDivide) (hn : d.typ = itemNumber)
    (rest : List Item) (t : Tune)
    (hitems : st.items = pre ++ divi :: d :: rest)
    (hct : st.currentTune = some t) :
    setMeter st = (.ok,
      { st with items := dropThroughNewline rest,
                currentTune := some { t with Meter :=
                  ⟨pre.filterMap (fun j =>
                      if j.typ = itemNumber then some (goAtoi j.val) else none),
                   goAtoi d.val⟩ } }) := by
  unfold setMeter
  rw [hitems, meterNums_run pre hpre divi hd (d :: rest) []]
  have hexp : pExpect [itemNumber] { st with items := d :: rest }
      = (.ok d, { st with items := rest }) := by
    simp [pExpect, pNextItem, hn]
  dsimp only
  rw [hexp]
  dsimp only
  simp only [hct]
  simp [pConsumeToNewline]

theorem scalarStringField_crash (f : Tune → List Char → Tune) (st : PState)
    (hct : st.currentTune = none) :
    (scalarStringField f st).1 = HStep.crash := by
  unfold scalarStringField
  cases h : pExpectString st with
  | mk ve st' =>
    have hs := pExpectString_state st
    rw [h] at hs; simp at hs
    obtain ⟨v, e⟩ := ve
    have hcur : st'.currentTune = none := by rw [hs.2, hct]
    simp [hcur]

theorem listAppendField_nilcur (f : Tune → List Char → Tune) (st : PState)
    (hct : st.currentTune = none) :
    (listAppendField f st).1 ≠ HStep.ok := by
  unfold listAppendField
  cases h : pExpect [itemString] st with
  | mk r st' =>
    have hs := pExpect_state [itemString] st
    rw [h] at hs; simp at hs
    cases r with
    | error e => simp
    | ok i =>
      have hcur : st'.currentTune = none := by rw [hs.2, hct]
      simp [hcur]

theorem setNoteLength_nilcur (st : PState) (hct : st.currentTune = none) :
    (setNoteLength st).1 ≠ HStep.ok := by
  unfold setNoteLength
  cases h1 : pExpect [itemNumber] st with
  | mk r1 st1 =>
    have e1 := pExpect_state [itemNumber] st
    rw [h1] at e1; simp at e1
    cases r1 with
    | error e => simp
    | ok i =>
      cases h2 : pExpect [itemDivide] st1 with
      | mk r2 st2 =>
        have e2 := pExpect_state [itemDivide] st1
        rw [h2] at e2; simp at e2
        simp only [h2]
        cases r2 with
        | error e => simp
        | ok j =>
          cases h3 : pExpect [itemNumber] st2 with
          | mk r3 st3 =>
            have e3 := pExpect_state [itemNumber] st2
            rw [h3] at e3; simp at e3
            simp only [h3]
            cases r3 with
            | error e => simp
            | ok k =>
              have hcur : st3.currentTune = none := by
                rw [e3.2, e2.2, e1.2, hct]
              simp [hcur]

theorem setMeter_nilcur (st : PState) (hct : st.currentTune = none) :
    (setMeter st).1 ≠ HStep.ok := by
  unfold setMeter
  cases h1 : meterNums st.items [] with
  | mk r rest =>
    cases r with
    | error e => simp
    | ok nums =>
      cases h2 : pExpect [itemNumber] { st with items := rest } with
      | mk r2 st2 =>
        have e2 := pExpect_state [itemNumber] { st with items := rest }
        rw [h2] at e2; simp at e2
        simp only [h2]
        cases r2 with
        | error e => simp
        | ok i =>
          have hcur : st2.currentTune = none := by rw [e2.2, hct]
          simp [hcur]

/-- The switch values of `handleFieldName` with a defined action: every other
item value reaches `errors.New("unhandled")`. -/
def handledFieldVals : List (List Char) :=
  [[headerA], [headerB], [headerC], [headerD], [headerF], [headerG], [headerH],
   [headerI], [headerK], [headerL], [headerM], [headerm], [headerN], [headerO],
   [headerP], [headerQ], [headerR], [headerr], [headerS], [headers], [headerT],
   [headerU], [headerV], [headerW], [headerw], [headerX], [headerZ]]

theorem handleFieldName_unhandled (i : Item) (st : PState)
    (hv : i.val ∉ handledFieldVals) :
    handleFieldName i st = (.err .unhandled, st) := by
  unfold handleFieldName
  repeat rw [if_neg (fun hc => hv (by rw [hc]; simp [handledFieldVals]))]

/-- A field-name item outside the handled switch values aborts the whole
parse with the "unhandled" error, whatever state the parser is in. -/
theorem parserParse_unhandled (i : Item) (rest : List Item) (tunes : List Tune)
    (cur : Option Tune) (hfn : i.typ = itemFieldName)
    (hv : i.val ∉ handledFieldVals) :
    parserParse ⟨i :: rest, tunes, cur⟩ = .err .unhandled := by
  have hh : handleItem i ⟨rest, tunes, cur⟩
      = (.err .unhandled, ⟨rest, tunes, cur⟩) := by
    unfold handleItem
    rw [if_pos hfn]
    exact handleFieldName_unhandled i _ hv
  rw [parserParse_cons_eq i rest tunes cur _ _ hh]

/-! ### Computation rules for the scanner primitives -/

theorem lexPeek_lt (l : LexState) (h : l.pos < l.input.length) :
    lexPeek l = (some (l.input.get ⟨l.pos, h⟩), { l with width := 1 }) := by
  unfold lexPeek lexNext lexBackup
  rw [dif_pos h]
  simp only [List.get_eq_getElem]
  by_cases hc : l.input[l.pos] = '\n' <;>
    simp [hc, List.getElem?_eq_getElem h]

theorem lexPeek_ge (l : LexState) (h : l.input.length ≤ l.pos) :
    lexPeek l = (none, { l with width := 0 }) := by
  unfold lexPeek lexNext lexBackup
  rw [dif_neg (by omega)]
  simp

theorem lexNext_lt (l : LexState) (h : l.pos < l.input.length) :
    lexNext l = (some (l.input.get ⟨l.pos, h⟩), { l with width := 1, pos := l.pos + 1, line := if l.input.get ⟨l.pos, h⟩ = '\n' then l.line + 1 else l.line }) := by
  unfold lexNext
  rw [dif_pos h]
  by_cases hc : l.input.get ⟨l.pos, h⟩ = '\n' <;> simp [hc, List.get_eq_getElem]

theorem lexNext_ge (l : LexState) (h : l.input.length ≤ l.pos) :
    lexNext l = (none, { l with width := 0 }) := by
  unfold lexNext
  rw [dif_neg (by omega)]

/-- consumeToEndOfLine over a tail free of end-of-line characters stops at
end of input. -/
theorem consumeToEol_run (l : LexState) :
    ∀ (hle : l.pos ≤ l.input.length)
      (hall : ∀ k, (hk : k < l.input.length) → l.pos ≤ k →
        isEndOfLine (l.input.get ⟨k, hk⟩) = false),
    consumeToEolLoop l = { l with pos := l.input.length, width := 0 } := by
  generalize hm : l.input.length - l.pos = n
  induction n generalizing l with
  | zero =>
    intro hle hall
    have hp : l.pos = l.input.length := by omega
    rw [consumeToEolLoop]
    split
    · next r l' heq =>
      rw [lexPeek_ge l (by omega)] at heq
      simp at heq
    · next l' heq =>
      rw [lexPeek_ge l (by omega)] at heq
      simp only [Prod.mk.injEq] at heq
      rw [← heq.2, hp]
  | succ n ih =>
    intro hle hall
    have hlt : l.pos < l.input.length := by omega
    rw [consumeToEolLoop]
    split
    · next r l' heq =>
      rw [lexPeek_lt l hlt] at heq
      simp only [Prod.mk.injEq, Option.some.injEq] at heq
      obtain ⟨hr, hl'⟩ := heq
      have hne := hall l.pos hlt le_rfl
      rw [hr] at hne
      rw [if_pos (by simp [hne])]
      subst hl'
      rw [ih { l with width := 1, pos := l.pos + 1 } (by simp; omega)
        (by simp; omega)
        (by intro k hk hge
            simp at hk hge
            exact hall k hk (by omega))]
    · next l' heq =>
      rw [lexPeek_lt l hlt] at heq
      simp at heq

theorem runLex_succ (fuel : Nat) (tag : STag) (l : LexState) :
    runLex (fuel + 1) tag l
      = match stepLex tag l with
        | none => none
        | some (none, l') => some l'.items
        | some (some tag', l') => runLex fuel tag' l' := rfl

theorem isPrefixOf_longer {a : Char} {xs s : List Char}
    (h : List.isPrefixOf [a] s = false) :
    List.isPrefixOf (a :: xs) s = false := by
  cases s with
  | nil => rfl
  | cons b t =>
    simp [List.isPrefixOf] at h ⊢
    intro hab
    exact absurd hab h

/-! ### The claims -/

unseal acceptRunLoop ignoreWhitespaceLoop consumeToEolLoop chordScanLoop headerMeterLoop headerNoteLengthLoop parserParse in
/-- C1 (counterexample): parsing the exact four-header-line input with no
trailing newline does NOT succeed: the scanner emits no newline item before
end-of-input, so the rhythm field's expectNewline meets the EOF item and Read
returns an expectation error instead of the tune. -/
theorem c1_read_example_without_final_newline_errors :
    readGas 100 (String.toList "X:1\nM:4/4\nO:Irish\nR:Reel")
      = some (.err (.expectedWrongType [itemNewline] ⟨itemEOF, 24, [], 4⟩)) := by
  rfl

unseal acceptRunLoop ignoreWhitespaceLoop consumeToEolLoop chordScanLoop headerMeterLoop headerNoteLengthLoop parserParse in
/-- C1 (amended): with a trailing newline after the rhythm line, Read on
`X:1\nM:4/4\nO:Irish\nR:Reel\n` succeeds with exactly one tune having
Sequence 1, Meter numerator [4] and denominator 4, Origin "Irish" and Rhythm
"Reel", and no error. -/
theorem c1_read_example_with_final_newline :
    readGas 100 (String.toList "X:1\nM:4/4\nO:Irish\nR:Reel\n")
      = some (.ok [{ emptyTune with
          Sequence := 1
          Meter := ⟨[4], 4⟩
          Origin := String.toList "Irish"
          Rhythm := String.toList "Reel" }]) := by
  rfl

/-- C2: a successfully-read sequence-number item first appends the
in-progress accumulator (when one exists) to the output and then installs a
fresh accumulator holding only the new sequence number, all other fields at
their zero values; and when the token sequence is exhausted the in-progress
accumulator is appended, so the final tune is never dropped. -/
theorem c2_sequence_flush_and_final_flush :
    (∀ (st : PState) (i : Item) (rest : List Item),
      st.items = i :: rest → i.typ = itemNumber →
      (setSequence st).2.tunes = st.tunes ++ st.currentTune.toList ∧
        (setSequence st).2.currentTune
          = some { emptyTune with Sequence := goAtoi i.val })
    ∧ (∀ (tunes : List Tune) (cur : Option Tune),
        parserParse ⟨[], tunes, cur⟩ = .ok (tunes ++ cur.toList)) :=
  ⟨fun st i rest hm ht => setSequence_spec st i rest hm ht,
   fun tunes cur => parserParse_nil tunes cur⟩

/-- C2 witness: on items `[number "7"]` with tune `Sequence=3` in progress,
setSequence flushes the old tune and installs `Sequence=7`; and the final
flush of parse appends the in-progress tune. -/
theorem c2_sequence_flush_witness :
    ((setSequence ⟨[⟨itemNumber, 0, ['7'], 1⟩], [],
        some { emptyTune with Sequence := 3 }⟩).2.tunes
      = [{ emptyTune with Sequence := 3 }] ∧
     (setSequence ⟨[⟨itemNumber, 0, ['7'], 1⟩], [],
        some { emptyTune with Sequence := 3 }⟩).2.currentTune
      = some { emptyTune with Sequence := 7 }) ∧
    parserParse ⟨[], [{ emptyTune with Sequence := 3 }],
        some { emptyTune with Sequence := 7 }⟩
      = .ok [{ emptyTune with Sequence := 3 }, { emptyTune with Sequence := 7 }] := by
  have h := c2_sequence_flush_and_final_flush.1
    ⟨[⟨itemNumber, 0, ['7'], 1⟩], [], some { emptyTune with Sequence := 3 }⟩
    ⟨itemNumber, 0, ['7'], 1⟩ [] rfl rfl
  have h2 := c2_sequence_flush_and_final_flush.2
    [{ emptyTune with Sequence := 3 }] (some { emptyTune with Sequence := 7 })
  exact ⟨⟨h.1.trans (by decide), h.2.trans (by decide)⟩, h2.trans (by decide)⟩

unseal acceptRunLoop ignoreWhitespaceLoop consumeToEolLoop chordScanLoop headerMeterLoop headerNoteLengthLoop parserParse in
/-- C3 (counterexample): on input `~` the scanner halts with a scan-error
item, yet Read returns the empty tune list with no error: the scan error is
silently dropped, contradicting the claim that every scan error is fatal to
the parse. -/
theorem c3_scan_error_not_fatal :
    scanGas 20 (String.toList "~")
      = some [⟨itemError, 0, String.toList "unknown character: ~", 1⟩] ∧
    readGas 20 (String.toList "~") = some (.ok []) := by
  exact ⟨rfl, rfl⟩

/-- C3 (amended): the top-level parse loop acts only on field-name items, so
a scan-error item (like every other non-field-name item) is ignored: a token
sequence with no field-name items parses to the accumulated tunes with no
error, the error item silently dropped.  A scan error surfaces only
indirectly, when its item arrives while a field sub-parser expects a specific
token type. -/
theorem c3_error_items_ignored_at_top_level :
    ∀ (items : List Item) (tunes : List Tune) (cur : Option Tune),
      (∀ i ∈ items, i.typ ≠ itemFieldName) →
      parserParse ⟨items, tunes, cur⟩ = .ok (tunes ++ cur.toList) :=
  fun items tunes cur h => parserParse_skips items tunes cur h

/-- C3 witness: the scan-error item produced for `~` is ignored by the parse
loop, which returns ok with no tunes. -/
theorem c3_error_items_ignored_witness :
    (∀ i ∈ [(⟨itemError, 0, String.toList "unknown character: ~", 1⟩ : Item)],
      i.typ ≠ itemFieldName) ∧
    parserParse ⟨[⟨itemError, 0, String.toList "unknown character: ~", 1⟩], [], none⟩
      = .ok [] :=
  ⟨by decide,
   c3_error_items_ignored_at_top_level
     [⟨itemError, 0, String.toList "unknown character: ~", 1⟩] [] none (by decide)⟩

unseal acceptRunLoop ignoreWhitespaceLoop consumeToEolLoop chordScanLoop headerMeterLoop headerNoteLengthLoop parserParse in
/-- C4 (code bug): on the body input `"x`, whose chord literal has no closing
quote, the scanner never terminates: for every amount of driver fuel the scan
is still incomplete (the chord scan loop advances `l.pos` past end of input
forever because `peek` keeps returning the eof sentinel, never `'"'`), so no
terminal token is ever produced.  The claim's required behaviour — a terminal
token after finitely many tokens — fails at this input. -/
theorem c4_unterminated_chord_never_terminates :
    ∀ fuel : Nat, scanGas fuel (String.toList "\"x") = none :=
  fun fuel =>
    match fuel with
    | 0 => rfl
    | 1 => rfl
    | 2 => rfl
    | _ + 3 => rfl

unseal acceptRunLoop ignoreWhitespaceLoop consumeToEolLoop chordScanLoop headerMeterLoop headerNoteLengthLoop parserParse in
/-- C5 (code bug): the compound-marker lookahead tests the input starting at
`l.pos+1` instead of `l.pos`.  Consequently `|]a`, whose first two characters
form the thin-thick marker, is scanned as a plain barline `|` followed by an
unknown-character error on `]`; while `x|]z` triggers the lookahead one
position early and emits a thin-thick-double-barline token whose literal is
`x|` — not the marker characters. -/
theorem c5_compound_barline_offset_bug :
    scanGas 100 (String.toList "|]a")
      = some [⟨itemBarline, 0, ['|'], 1⟩,
              ⟨itemError, 1, String.toList "unknown character: ]", 1⟩] ∧
    scanGas 100 (String.toList "x|]z")
      = some [⟨itemThinThickDoubleBarLine, 0, ['x', '|'], 1⟩,
              ⟨itemError, 2, String.toList "unknown character: ]", 1⟩] := by
  exact ⟨rfl, rfl⟩

/-- C6: on a meter field whose token run before the divide consists only of
number and plus items, setMeter collects each number item's integer value in
order into Meter.Numerator (plus items accepted but not recorded), takes
exactly one number item after the divide as Meter.Denominator, and discards
the remaining items through the next newline. -/
theorem c6_meter_field_parsing (st : PState) (pre : List Item)
    (hpre : ∀ j ∈ pre, j.typ = itemNumber ∨ j.typ = itemPlus)
    (divi d : Item) (hd : divi.typ = itemDivide) (hn : d.typ = itemNumber)
    (rest : List Item) (t : Tune)
    (hitems : st.items = pre ++ divi :: d :: rest)
    (hct : st.currentTune = some t) :
    setMeter st = (.ok,
      { st with items := dropThroughNewline rest,
                currentTune := some { t with Meter :=
                  ⟨pre.filterMap (fun j =>
                      if j.typ = itemNumber then some (goAtoi j.val) else none),
                   goAtoi d.val⟩ } }) :=
  setMeter_spec st pre hpre divi d hd hn rest t hitems hct

/-- C6 witness: the token run of `M:4+2/4` (numbers 4, plus, 2, divide,
number 4, then a discarded tail through the newline) yields Numerator [4, 2]
and Denominator 4. -/
theorem c6_meter_field_witness :
    (∀ j ∈ [(⟨itemNumber, 2, ['4'], 1⟩ : Item), ⟨itemPlus, 3, ['+'], 1⟩,
        ⟨itemNumber, 4, ['2'], 1⟩], j.typ = itemNumber ∨ j.typ = itemPlus) ∧
    setMeter ⟨[⟨itemNumber, 2, ['4'], 1⟩, ⟨itemPlus, 3, ['+'], 1⟩,
        ⟨itemNumber, 4, ['2'], 1⟩, ⟨itemDivide, 5, ['/'], 1⟩,
        ⟨itemNumber, 6, ['4'], 1⟩, ⟨itemString, 7, ['w'], 1⟩,
        ⟨itemNewline, 8, ['\n'], 1⟩, ⟨itemLetter, 9, ['q'], 2⟩], [],
        some emptyTune⟩
      = (.ok, ⟨[⟨itemLetter, 9, ['q'], 2⟩], [],
          some { emptyTune with Meter := ⟨[4, 2], 4⟩ }⟩) := by
  refine ⟨by decide, ?_⟩
  have h := c6_meter_field_parsing
    ⟨[⟨itemNumber, 2, ['4'], 1⟩, ⟨itemPlus, 3, ['+'], 1⟩,
      ⟨itemNumber, 4, ['2'], 1⟩, ⟨itemDivide, 5, ['/'], 1⟩,
      ⟨itemNumber, 6, ['4'], 1⟩, ⟨itemString, 7, ['w'], 1⟩,
      ⟨itemNewline, 8, ['\n'], 1⟩, ⟨itemLetter, 9, ['q'], 2⟩], [], some emptyTune⟩
    [⟨itemNumber, 2, ['4'], 1⟩, ⟨itemPlus, 3, ['+'], 1⟩, ⟨itemNumber, 4, ['2'], 1⟩]
    (by decide) ⟨itemDivide, 5, ['/'], 1⟩ ⟨itemNumber, 6, ['4'], 1⟩ rfl rfl
    [⟨itemString, 7, ['w'], 1⟩, ⟨itemNewline, 8, ['\n'], 1⟩, ⟨itemLetter, 9, ['q'], 2⟩]
    emptyTune rfl rfl
  exact h.trans (by decide)

unseal acceptRunLoop ignoreWhitespaceLoop consumeToEolLoop chordScanLoop headerMeterLoop headerNoteLengthLoop parserParse in
/-- C7 (counterexample): the input `T:x\nE:y` contains the unrecognized
header letter `E`, yet Read does not return an error: it panics first on the
nil current-tune dereference while handling `T` (no X field has created the
accumulator), so no error reaches the caller. -/
theorem c7_unhandled_field_after_crash :
    readGas 100 (String.toList "T:x\nE:y") = some .crash := by
  rfl

/-- C7 (amended): whenever the top-level parse loop reaches a field-name item
whose value is outside the handled switch values, handleFieldName returns the
"unhandled" error and the whole parse aborts immediately with that error and
no partial result — provided the parse reaches it without first panicking on
a nil current-tune dereference from an earlier handled field. -/
theorem c7_unhandled_field_aborts :
    ∀ (i : Item) (rest : List Item) (tunes : List Tune) (cur : Option Tune),
      i.typ = itemFieldName → i.val ∉ handledFieldVals →
      parserParse ⟨i :: rest, tunes, cur⟩ = .err .unhandled :=
  fun i rest tunes cur hfn hv => parserParse_unhandled i rest tunes cur hfn hv

/-- C7 witness: a field-name item `E` aborts the parse with the unhandled
error. -/
theorem c7_unhandled_field_witness :
    (⟨itemFieldName, 0, ['E'], 1⟩ : Item).typ = itemFieldName ∧
    (⟨itemFieldName, 0, ['E'], 1⟩ : Item).val ∉ handledFieldVals ∧
    parserParse ⟨[⟨itemFieldName, 0, ['E'], 1⟩, ⟨itemError, 2, [], 1⟩], [], none⟩
      = .err .unhandled :=
  ⟨rfl, by decide,
   c7_unhandled_field_aborts ⟨itemFieldName, 0, ['E'], 1⟩
     [⟨itemError, 2, [], 1⟩] [] none rfl (by decide)⟩

/-- C10 (amended): with no in-progress accumulator (no X field yet), a
handled non-X field never succeeds: the scalar string fields (A B C D F G O R
S T Z) always panic on the nil current-tune dereference — even when their
token expectations fail — while the list/meter/note-length fields (H N W L M)
panic once their expectations succeed and otherwise return an expectation
error; there is no error branch for the missing accumulator itself. -/
theorem c10_handlers_undefined_without_current_tune :
    (∀ (i : Item) (st : PState),
      i.val ∈ ([[headerA], [headerB], [headerC], [headerD], [headerF],
        [headerG], [headerO], [headerR], [headerS], [headerT], [headerZ]] :
          List (List Char)) →
      st.currentTune = none → (handleFieldName i st).1 = HStep.crash)
    ∧ (∀ (i : Item) (st : PState),
        i.val ∈ ([[headerH], [headerN], [headerW], [headerL], [headerM]] :
          List (List Char)) →
        st.currentTune = none → (handleFieldName i st).1 ≠ HStep.ok) := by
  constructor
  · intro i st hv hct
    simp only [List.mem_cons, List.not_mem_nil, or_false] at hv
    rcases hv with hv | hv | hv | hv | hv | hv | hv | hv | hv | hv | hv
    · unfold handleFieldName
      rw [if_pos hv]
      exact scalarStringField_crash _ st hct
    · unfold handleFieldName
      rw [if_neg (by rw [hv]; decide)]
      rw [if_pos hv]
      exact scalarStringField_crash _ st hct
    · unfold handleFieldName
      rw [if_neg (by rw [hv]; decide)]
      rw [if_neg (by rw [hv]; decide)]
      rw [if_pos hv]
      exact scalarStringField_crash _ st hct
    · unfold handleFieldName
      rw [if_neg (by rw [hv]; decide)]
      rw [if_neg (by rw [hv]; decide)]
      rw [if_neg (by rw [hv]; decide)]
      rw [if_pos hv]
      exact scalarStringField_crash _ st hct
    · unfold handleFieldName
      rw [if_neg (by rw [hv]; decide)]
      rw [if_neg (by rw [hv]; decide)]
      rw [if_neg (by rw [hv]; decide)]
      rw [if_neg (by rw [hv]; decide)]
      rw [if_pos hv]
      exact scalarStringField_crash _ st hct
    · unfold handleFieldName
      rw [if_neg (by rw [hv]; decide)]
      rw [if_neg (by rw [hv]; decide)]
      rw [if_neg (by rw [hv]; decide)]
      rw [if_neg (by rw [hv]; decide)]
      rw [if_neg (by rw [hv]; decide)]
      rw [if_pos hv]
      exact scalarStringField_crash _ st hct
    · unfold handleFieldName
      rw [if_neg (by rw [hv]; decide)]
      rw [if_neg (by rw [hv]; decide)]
      rw [if_neg (by rw [hv]; decide)]
      rw [if_neg (by rw [hv]; decide)]
      rw [if_neg (by rw [hv]; decide)]
      rw [if_neg (by rw [hv]; decide)]
      rw [if_neg (by rw [hv]; decide)]
      rw [if_neg (by rw [hv]; decide)]
      rw [if_neg (by rw [hv]; decide)]
      rw [if_neg (by rw [hv]; decide)]
      rw [if_neg (by rw [hv]; decide)]
      rw [if_neg (by rw [hv]; decide)]
      rw [if_neg (by rw [hv]; decide)]
      rw [if_pos hv]
      exact scalarStringField_crash _ st hct
    · unfold handleFieldName
      rw [if_neg (by rw [hv]; decide)]
      rw [if_neg (by rw [hv]; decide)]
      rw [if_neg (by rw [hv]; decide)]
      rw [if_neg (by rw [hv]; decide)]
      rw [if_neg (by rw [hv]; decide)]
      rw [if_neg (by rw [hv]; decide)]
      rw [if_neg (by rw [hv]; decide)]
      rw [if_neg (by rw [hv]; decide)]
      rw [if_neg (by rw [hv]; decide)]
      rw [if_neg (by rw [hv]; decide)]
      rw [if_neg (by rw [hv]; decide)]
      rw [if_neg (by rw [hv]; decide)]
      rw [if_neg (by rw [hv]; decide)]
      rw [if_neg (by rw [hv]; decide)]
      rw [if_neg (by rw [hv]; decide)]
      rw [if_neg (by rw [hv]; decide)]
      rw [if_pos hv]
      exact scalarStringField_crash _ st hct
    · unfold handleFieldName
      rw [if_neg (by rw [hv]; decide)]
      rw [if_neg (by rw [hv]; decide)]
      rw [if_neg (by rw [hv]; decide)]
      rw [if_neg (by rw [hv]; decide)]
      rw [if_neg (by rw [hv]; decide)]
      rw [if_neg (by rw [hv]; decide)]
      rw [if_neg (by rw [hv]; decide)]
      rw [if_neg (by rw [hv]; decide)]
      rw [if_neg (by rw [hv]; decide)]
      rw [if_neg (by rw [hv]; decide)]
      rw [if_neg (by rw [hv]; decide)]
      rw [if_neg (by rw [hv]; decide)]
      rw [if_neg (by rw [hv]; decide)]
      rw [if_neg (by rw [hv]; decide)]
      rw [if_neg (by rw [hv]; decide)]
      rw [if_neg (by rw [hv]; decide)]
      rw [if_neg (by rw [hv]; decide)]
      rw [if_neg (by rw [hv]; decide)]
      rw [if_pos hv]
      exact scalarStringField_crash _ st hct
    · unfold handleFieldName
      rw [if_neg (by rw [hv]; decide)]
      rw [if_neg (by rw [hv]; decide)]
      rw [if_neg (by rw [hv]; decide)]
      rw [if_neg (by rw [hv]; decide)]
      rw [if_neg (by rw [hv]; decide)]
      rw [if_neg (by rw [hv]; decide)]
      rw [if_neg (by rw [hv]; decide)]
      rw [if_neg (by rw [hv]; decide)]
      rw [if_neg (by rw [hv]; decide)]
      rw [if_neg (by rw [hv]; decide)]
      rw [if_neg (by rw [hv]; decide)]
      rw [if_neg (by rw [hv]; decide)]
      rw [if_neg (by rw [hv]; decide)]
      rw [if_neg (by rw [hv]; decide)]
      rw [if_neg (by rw [hv]; decide)]
      rw [if_neg (by rw [hv]; decide)]
      rw [if_neg (by rw [hv]; decide)]
      rw [if_neg (by rw [hv]; decide)]
      rw [if_neg (by rw [hv]; decide)]
      rw [if_neg (by rw [hv]; decide)]
      rw [if_pos hv]
      exact scalarStringField_crash _ st hct
    · unfold handleFieldName
      rw [if_neg (by rw [hv]; decide)]
      rw [if_neg (by rw [hv]; decide)]
      rw [if_neg (by rw [hv]; decide)]
      rw [if_neg (by rw [hv]; decide)]
      rw [if_neg (by rw [hv]; decide)]
      rw [if_neg (by rw [hv]; decide)]
      rw [if_neg (by rw [hv]; decide)]
      rw [if_neg (by rw [hv]; decide)]
      rw [if_neg (by rw [hv]; decide)]
      rw [if_neg (by rw [hv]; decide)]
      rw [if_neg (by rw [hv]; decide)]
      rw [if_neg (by rw [hv]; decide)]
      rw [if_neg (by rw [hv]; decide)]
      rw [if_neg (by rw [hv]; decide)]
      rw [if_neg (by rw [hv]; decide)]
      rw [if_neg (by rw [hv]; decide)]
      rw [if_neg (by rw [hv]; decide)]
      rw [if_neg (by rw [hv]; decide)]
      rw [if_neg (by rw [hv]; decide)]
      rw [if_neg (by rw [hv]; decide)]
      rw [if_neg (by rw [hv]; decide)]
      rw [if_neg (by rw [hv]; decide)]
      rw [if_neg (by rw [hv]; decide)]
      rw [if_neg (by rw [hv]; decide)]
      rw [if_neg (by rw [hv]; decide)]
      rw [if_neg (by rw [hv]; decide)]
      rw [if_pos hv]
      exact scalarStringField_crash _ st hct
  · intro i st hv hct
    simp only [List.mem_cons, List.not_mem_nil, or_false] at hv
    rcases hv with hv | hv | hv | hv | hv
    · unfold handleFieldName
      rw [if_neg (by rw [hv]; decide)]
      rw [if_neg (by rw [hv]; decide)]
      rw [if_neg (by rw [hv]; decide)]
      rw [if_neg (by rw [hv]; decide)]
      rw [if_neg (by rw [hv]; decide)]
      rw [if_neg (by rw [hv]; decide)]
      rw [if_pos hv]
      exact listAppendField_nilcur _ st hct
    · unfold handleFieldName
      rw [if_neg (by rw [hv]; decide)]
      rw [if_neg (by rw [hv]; decide)]
      rw [if_neg (by rw [hv]; decide)]
      rw [if_neg (by rw [hv]; decide)]
      rw [if_neg (by rw [hv]; decide)]
      rw [if_neg (by rw [hv]; decide)]
      rw [if_neg (by rw [hv]; decide)]
      rw [if_neg (by rw [hv]; decide)]
      rw [if_neg (by rw [hv]; decide)]
      rw [if_neg (by rw [hv]; decide)]
      rw [if_neg (by rw [hv]; decide)]
      rw [if_neg (by rw [hv]; decide)]
      rw [if_pos hv]
      exact listAppendField_nilcur _ st hct
    · unfold handleFieldName
      rw [if_neg (by rw [hv]; decide)]
      rw [if_neg (by rw [hv]; decide)]
      rw [if_neg (by rw [hv]; decide)]
      rw [if_neg (by rw [hv]; decide)]
      rw [if_neg (by rw [hv]; decide)]
      rw [if_neg (by rw [hv]; decide)]
      rw [if_neg (by rw [hv]; decide)]
      rw [if_neg (by rw [hv]; decide)]
      rw [if_neg (by rw [hv]; decide)]
      rw [if_neg (by rw [hv]; decide)]
      rw [if_neg (by rw [hv]; decide)]
      rw [if_neg (by rw [hv]; decide)]
      rw [if_neg (by rw [hv]; decide)]
      rw [if_neg (by rw [hv]; decide)]
      rw [if_neg (by rw [hv]; decide)]
      rw [if_neg (by rw [hv]; decide)]
      rw [if_neg (by rw [hv]; decide)]
      rw [if_neg (by rw [hv]; decide)]
      rw [if_neg (by rw [hv]; decide)]
      rw [if_neg (by rw [hv]; decide)]
      rw [if_neg (by rw [hv]; decide)]
      rw [if_neg (by rw [hv]; decide)]
      rw [if_neg (by rw [hv]; decide)]
      rw [if_pos hv]
      exact listAppendField_nilcur _ st hct
    · unfold handleFieldName
      rw [if_neg (by rw [hv]; decide)]
      rw [if_neg (by rw [hv]; decide)]
      rw [if_neg (by rw [hv]; decide)]
      rw [if_neg (by rw [hv]; decide)]
      rw [if_neg (by rw [hv]; decide)]
      rw [if_neg (by rw [hv]; decide)]
      rw [if_neg (by rw [hv]; decide)]
      rw [if_neg (by rw [hv]; decide)]
      rw [if_neg (by rw [hv]; decide)]
      rw [if_pos hv]
      exact setNoteLength_nilcur st hct
    · unfold handleFieldName
      rw [if_neg (by rw [hv]; decide)]
      rw [if_neg (by rw [hv]; decide)]
      rw [if_neg (by rw [hv]; decide)]
      rw [if_neg (by rw [hv]; decide)]
      rw [if_neg (by rw [hv]; decide)]
      rw [if_neg (by rw [hv]; decide)]
      rw [if_neg (by rw [hv]; decide)]
      rw [if_neg (by rw [hv]; decide)]
      rw [if_neg (by rw [hv]; decide)]
      rw [if_neg (by rw [hv]; decide)]
      rw [if_pos hv]
      exact setMeter_nilcur st hct

unseal acceptRunLoop ignoreWhitespaceLoop consumeToEolLoop chordScanLoop headerMeterLoop headerNoteLengthLoop parserParse in
/-- C10 (counterexample): a handled non-X field before the first X does not
always crash: a meter field whose content item is a letter makes setMeter
return an expectation error before the nil dereference is reached, so the
parse returns an error, not a crash. -/
theorem c10_meter_before_x_errors_not_crash :
    parserParse ⟨[⟨itemFieldName, 0, ['M'], 1⟩, ⟨itemLetter, 2, ['q'], 1⟩,
        ⟨itemFieldName, 3, ['X'], 2⟩, ⟨itemNumber, 5, ['1'], 2⟩], [], none⟩
      = .err (.meterUnexpected ⟨itemLetter, 2, ['q'], 1⟩) := by
  rfl

/-- C10 witness: the title handler crashes on the nil accumulator. -/
theorem c10_handlers_undefined_witness :
    ((⟨itemFieldName, 0, ['T'], 1⟩ : Item).val
        ∈ ([[headerA], [headerB], [headerC], [headerD], [headerF], [headerG],
            [headerO], [headerR], [headerS], [headerT], [headerZ]] :
              List (List Char))) ∧
    (⟨[], [], none⟩ : PState).currentTune = none ∧
    (handleFieldName ⟨itemFieldName, 0, ['T'], 1⟩ ⟨[], [], none⟩).1
      = HStep.crash :=
  ⟨by decide, rfl,
   c10_handlers_undefined_without_current_tune.1 ⟨itemFieldName, 0, ['T'], 1⟩
     ⟨[], [], none⟩ (by decide) rfl⟩

/-- C9: tunes already flushed to the output are never modified (a successful
parse only appends to the accumulated output), and no handler other than the
sequence-number field changes the sequence number of the in-progress
accumulator, which is assigned at the accumulator's creation. -/
theorem c9_sequence_immutable_and_output_append_only :
    (∀ (st : PState) (out : List Tune), parserParse st = .ok out →
      ∃ ex, out = st.tunes ++ ex)
    ∧ (∀ (i : Item) (st : PState), i.val ≠ [headerX] →
        ((handleItem i st).2.currentTune).map Tune.Sequence
          = (st.currentTune).map Tune.Sequence) :=
  ⟨fun st out hp => parserParse_prefix st.items.length st out le_rfl hp,
   fun i st hx => handleItem_seq i st hx⟩

/-- C9 witness: processing a title field leaves the in-progress tune's
sequence number 5 untouched. -/
theorem c9_sequence_immutable_witness :
    (⟨itemFieldName, 0, ['T'], 1⟩ : Item).val ≠ [headerX] ∧
    ((handleItem ⟨itemFieldName, 0, ['T'], 1⟩
        ⟨[], [], some { emptyTune with Sequence := 5 }⟩).2.currentTune).map
        Tune.Sequence
      = some 5 :=
  ⟨by decide,
   (c9_sequence_immutable_and_output_append_only.2 ⟨itemFieldName, 0, ['T'], 1⟩
     ⟨[], [], some { emptyTune with Sequence := 5 }⟩ (by decide)).trans
     (by decide)⟩

unseal acceptRunLoop ignoreWhitespaceLoop consumeToEolLoop chordScanLoop headerMeterLoop headerNoteLengthLoop parserParse in
/-- C8 (counterexample): the single-line input `%:` begins with `%` but its
second character is a colon, so the line dispatcher treats it as a header
line: the token sequence is [field-name, error], not [percent, comment,
end-of-input]. -/
theorem c8_percent_colon_line_not_comment :
    (scanGas 20 (String.toList "%:")).map (List.map Item.typ)
      = some [itemFieldName, itemError] ∧
    (scanGas 20 (String.toList "%:")).map (List.map Item.typ)
      ≠ some [itemPercent, itemComment, itemEOF] := by
  exact ⟨rfl, by decide⟩

/-- C8 (amended): for every input consisting of a single line that begins
with `%`, contains no end-of-line character, whose second character is not a
colon (which the line dispatcher would take as a header line), and which does
not continue with one of the two-character barline markers `|]` `||` `[|`
`|:` `.|` right after the `%` (which the body-line lookahead, checking at
offset 1, would recognize first), the scanner's token sequence is exactly
[percent, comment, end-of-input]. -/
theorem c8_comment_banner_tokens (content : List Char)
    (hnl : ∀ c ∈ content, isEndOfLine c = false)
    (hcolon : List.isPrefixOf [':'] content = false)
    (hm1 : List.isPrefixOf ['|', ']'] content = false)
    (hm2 : List.isPrefixOf ['|', '|'] content = false)
    (hm3 : List.isPrefixOf ['[', '|'] content = false)
    (hm4 : List.isPrefixOf ['|', ':'] content = false)
    (hm5 : List.isPrefixOf ['.', '|'] content = false) :
    scanGas 8 ('%' :: content)
      = some [⟨itemPercent, 0, ['%'], 1⟩,
              ⟨itemComment, 1, content, 1⟩,
              ⟨itemEOF, content.length + 1, [], 1⟩] := by
  have hlen0 : (0 : Nat) < ('%' :: content).length := by simp
  have hmk : mkLexState ('%' :: content) = ⟨[], '%' :: content, 0, 0, 0, [], 0, 1⟩ := rfl
  have hs1 : lexLineF ⟨[], '%' :: content, 0, 0, 0, [], 0, 1⟩
      = some (some STag.bodyLine, ⟨[], '%' :: content, 0, 0, 1, [], 0, 1⟩) := by
    unfold lexLineF
    rw [lexPeek_lt ⟨[], '%' :: content, 0, 0, 0, [], 0, 1⟩ hlen0]
    simp [hcolon]
  have hpfx : ∀ t : List Char, List.isPrefixOf t content = false →
      ¬ (List.isPrefixOf t (List.drop (0 + 1) ('%' :: content)) = true) := by
    intro t ht
    simp [ht]
  have hs2 : lexBodyLineF ⟨[], '%' :: content, 0, 0, 1, [], 0, 1⟩
      = some (some STag.commentLn,
          ⟨[], '%' :: content, 1, 1, 1, [⟨itemPercent, 0, ['%'], 1⟩], 0, 1⟩) := by
    unfold lexBodyLineF
    rw [lexPeek_lt ⟨[], '%' :: content, 0, 0, 1, [], 0, 1⟩ hlen0]
    dsimp only
    rw [lexPeek_lt ⟨[], '%' :: content, 0, 0, 1, [], 0, 1⟩ hlen0]
    dsimp only
    rw [show ('%' :: content).get ⟨0, hlen0⟩ = '%' from rfl]
    rw [if_neg (by decide), if_neg (by decide)]
    by_cases hl2 : 0 + 2 < ('%' :: content).length
    · rw [if_pos hl2]
      rw [if_neg (hpfx _ hm1), if_neg (hpfx _ hm2), if_neg (hpfx _ hm3),
        if_neg (hpfx _ hm4),
        if_neg (hpfx _ (isPrefixOf_longer hcolon)),
        if_neg (by simp [isPrefixOf_longer hcolon]),
        if_neg (hpfx _ hm5)]
      unfold lexBodySingle
      rw [lexNext_lt ⟨[], '%' :: content, 0, 0, 1, [], 0, 1⟩ hlen0]
      simp [lexEmit]
    · rw [if_neg hl2]
      unfold lexBodySingle
      rw [lexNext_lt ⟨[], '%' :: content, 0, 0, 1, [], 0, 1⟩ hlen0]
      simp [lexEmit]
  have hs3 : lexCommentF ⟨[], '%' :: content, 1, 1, 1, [⟨itemPercent, 0, ['%'], 1⟩], 0, 1⟩
      = some (some STag.line,
          ⟨[], '%' :: content, content.length + 1, content.length + 1, 0,
           [⟨itemPercent, 0, ['%'], 1⟩, ⟨itemComment, 1, content, 1⟩], 0, 1⟩) := by
    unfold lexCommentF
    rw [consumeToEol_run ⟨[], '%' :: content, 1, 1, 1, [⟨itemPercent, 0, ['%'], 1⟩], 0, 1⟩
      (by simp)
      (by
        intro k hk hge
        match k, hge with
        | (j + 1), _ =>
          rw [show ('%' :: content).get ⟨j + 1, hk⟩
              = content.get ⟨j, by simpa using hk⟩ from rfl]
          exact hnl _ (content.get_mem _ _))]
    simp only [List.length_cons]
    rw [show lexEmit itemComment
        ⟨[], '%' :: content, content.length + 1, 1, 0,
         [⟨itemPercent, 0, ['%'], 1⟩], 0, 1⟩
        = ⟨[], '%' :: content, content.length + 1, content.length + 1, 0,
           [⟨itemPercent, 0, ['%'], 1⟩, ⟨itemComment, 1, content, 1⟩], 0, 1⟩ from by
      simp [lexEmit]]
    unfold lexAcceptNewline
    rw [lexNext_ge ⟨[], '%' :: content, content.length + 1, content.length + 1, 0,
      [⟨itemPercent, 0, ['%'], 1⟩, ⟨itemComment, 1, content, 1⟩], 0, 1⟩
      (by simp)]
  have hs4 : lexLineF ⟨[], '%' :: content, content.length + 1, content.length + 1, 0,
        [⟨itemPercent, 0, ['%'], 1⟩, ⟨itemComment, 1, content, 1⟩], 0, 1⟩
      = some (none,
          ⟨[], '%' :: content, content.length + 1, content.length + 1, 0,
           [⟨itemPercent, 0, ['%'], 1⟩, ⟨itemComment, 1, content, 1⟩,
            ⟨itemEOF, content.length + 1, [], 1⟩], 0, 1⟩) := by
    unfold lexLineF
    rw [lexPeek_ge _ (by simp)]
    simp [lexEmit]
  show runLex 8 STag.line (mkLexState ('%' :: content)) = _
  rw [hmk, show (8 : Nat) = 7 + 1 from rfl, runLex_succ]
  simp only [stepLex]
  rw [hs1]
  dsimp only
  rw [show (7 : Nat) = 6 + 1 from rfl, runLex_succ]
  simp only [stepLex]
  rw [hs2]
  dsimp only
  rw [show (6 : Nat) = 5 + 1 from rfl, runLex_succ]
  simp only [stepLex]
  rw [hs3]
  dsimp only
  rw [show (5 : Nat) = 4 + 1 from rfl, runLex_succ]
  simp only [stepLex]
  rw [hs4]

/-- C8 witness: the banner line `%abc-2.1` scans to exactly
[percent, comment, end-of-input]. -/
theorem c8_comment_banner_witness :
    (∀ c ∈ String.toList "abc-2.1", isEndOfLine c = false) ∧
    List.isPrefixOf [':'] (String.toList "abc-2.1") = false ∧
    scanGas 8 ('%' :: String.toList "abc-2.1")
      = some [⟨itemPercent, 0, ['%'], 1⟩,
              ⟨itemComment, 1, String.toList "abc-2.1", 1⟩,
              ⟨itemEOF, 8, [], 1⟩] :=
  ⟨by decide, by decide,
   (c8_comment_banner_tokens (String.toList "abc-2.1") (by decide) (by decide)
     (by decide) (by decide) (by decide) (by decide) (by decide)).trans
     (by decide)⟩
